import Mathlib

/-!
Verification of the round-robin pairing engine of `src/bot.py`
(function `generate_round_robin`, lines 36-89).

The Python function is embedded shallowly: the two `for` loops become
`List.foldl` over `List.range`, the mutable accumulators (`round_pairings`,
`bye_player`, `rounds`, `byes_per_round`, `players_list`) become explicit
fold state, and Python list subscripts become `List.getD` (a separate
`Option`-valued embedding `generate_round_robin_checked` models the fact
that subscripting can fail, for the totality claim).
-/

set_option maxHeartbeats 1000000

namespace RoundRobin

/-- Working list (src/bot.py lines 52-56): if the number of players is odd,
a synthetic `"BYE"` entry is appended, otherwise the list is used as given. -/
def workingList (players : List String) : List String :=
  if players.length % 2 = 1 then players ++ ["BYE"] else players

/-- One step of the inner pairing loop (src/bot.py lines 68-80): index `i`
is paired with index `num_players - 1 - i`; the pairing is appended when
neither side is `"BYE"`, otherwise the non-`"BYE"` side (if any) is stored
as the bye player, overwriting any earlier value — exactly the
`if/elif/elif` chain of the source. -/
def innerStep (pl : List String) (num_players : Nat)
    (acc : List (String × String) × Option String) (i : Nat) :
    List (String × String) × Option String :=
  let player1 := pl.getD i ""
  let player2 := pl.getD (num_players - 1 - i) ""
  if player1 ≠ "BYE" ∧ player2 ≠ "BYE" then (acc.1 ++ [(player1, player2)], acc.2)
  else if player1 ≠ "BYE" then (acc.1, some player1)
  else if player2 ≠ "BYE" then (acc.1, some player2)
  else acc

/-- The inner pairing loop of one round (src/bot.py lines 64-80):
`for i in range(num_players // 2)`. -/
def innerLoop (num_players : Nat) (pl : List String) :
    List (String × String) × Option String :=
  (List.range (num_players / 2)).foldl (innerStep pl num_players) ([], none)

/-- The rotation between rounds (src/bot.py line 87):
`players_list = [players_list[0]] + players_list[2:] + [players_list[1]]`. -/
def rotateOnce (pl : List String) : List String :=
  [pl.getD 0 ""] ++ pl.drop 2 ++ [pl.getD 1 ""]

/-- One iteration of the outer round loop (src/bot.py lines 63-87).
`res.2.getD ""` is Python's `bye_player if bye_player else ""` (line 83):
both `None` and the falsy empty string are stored as `""`. -/
def outerStep (num_players : Nat)
    (st : (List (List (String × String)) × List String) × List String)
    (_round_num : Nat) :
    (List (List (String × String)) × List String) × List String :=
  let acc := st.1
  let pl := st.2
  let res := innerLoop num_players pl
  ((acc.1 ++ [res.1], acc.2 ++ [res.2.getD ""]), rotateOnce pl)

/-- Shallow embedding of `generate_round_robin` (src/bot.py lines 36-89). -/
def generate_round_robin (players : List String) :
    List (List (String × String)) × List String :=
  let n := players.length
  if n < 2 then ([], [])
  else
    let players_list := workingList players
    let num_players := players_list.length
    ((List.range (num_players - 1)).foldl (outerStep num_players)
      (([], []), players_list)).1

/-! ### Position bookkeeping for the rotation

`posAfter M r j` is the index into the *initial* working list holding the
element that sits at position `j` of the working list after `r` rotations:
position `0` is fixed, and the other `M - 1` positions cycle. -/

/-- Index into the initial working list of the element at position `j`
after `r` rotations. -/
def posAfter (M r j : Nat) : Nat :=
  if j = 0 then 0 else 1 + ((j - 1 + r) % (M - 1))

/-- One step of the inner pairing loop with every Python list subscript
modelled as the fallible `List.get?` (an out-of-range subscript would raise
`IndexError`, here `none`); otherwise identical to `innerStep`. -/
def innerStep_checked (pl : List String) (num_players : Nat)
    (acc : Option (List (String × String) × Option String)) (i : Nat) :
    Option (List (String × String) × Option String) :=
  match acc, pl.get? i, pl.get? (num_players - 1 - i) with
  | some (ps, b), some player1, some player2 =>
    if player1 ≠ "BYE" ∧ player2 ≠ "BYE" then
      some (ps ++ [(player1, player2)], b)
    else if player1 ≠ "BYE" then some (ps, some player1)
    else if player2 ≠ "BYE" then some (ps, some player2)
    else some (ps, b)
  | _, _, _ => none

/-- One iteration of the outer round loop with fallible subscripts
(`players_list[0]` and `players_list[1]` of the rotation, src/bot.py
line 87); otherwise identical to `outerStep`. -/
def outerStep_checked (num_players : Nat)
    (st : Option ((List (List (String × String)) × List String) × List String))
    (_round_num : Nat) :
    Option ((List (List (String × String)) × List String) × List String) :=
  match st with
  | none => none
  | some (acc, pl) =>
    match (List.range (num_players / 2)).foldl
        (innerStep_checked pl num_players)
        (some (([] : List (String × String)), (none : Option String))),
        pl.get? 0, pl.get? 1 with
    | some inner, some head, some second =>
      some ((acc.1 ++ [inner.1], acc.2 ++ [inner.2.getD ""]),
        [head] ++ pl.drop 2 ++ [second])
    | _, _, _ => none

/-- `generate_round_robin` with every list subscript modelled as fallible:
the result is `none` exactly when some subscript of the Python code would
be out of range. -/
def generate_round_robin_checked (players : List String) :
    Option (List (List (String × String)) × List String) :=
  if players.length < 2 then some ([], [])
  else
    ((List.range ((workingList players).length - 1)).foldl
      (outerStep_checked (workingList players).length)
      (some ((([], []), workingList players)))).map Prod.fst

/-- One iteration of the outer round loop, additionally threading the list
object the caller passed in (`players`): every operation of the loop body
(`len`, subscripts, slicing, concatenation) only reads it or builds fresh
lists, so the threaded component passes through each iteration unchanged. -/
def outerStep_st (num_players : Nat)
    (st : ((List (List (String × String)) × List String) × List String) ×
      List String)
    (round_num : Nat) :
    ((List (List (String × String)) × List String) × List String) ×
      List String :=
  (outerStep num_players st.1 round_num, st.2)

/-- `generate_round_robin` with the caller's argument list threaded through
the whole computation as an explicit heap cell: the second component of the
result is the caller's list after the call.  `players + ["BYE"]` (line 54)
builds a fresh list, `players_list = players` (line 56) merely aliases, and
the rotation (line 87) rebinds `players_list` to a fresh list, so no step
ever writes through the caller's reference. -/
def generate_round_robin_st (players : List String) :
    (List (List (String × String)) × List String) × List String :=
  let n := players.length
  if n < 2 then (([], []), players)
  else
    let players_list := workingList players
    let num_players := players_list.length
    let res := (List.range (num_players - 1)).foldl (outerStep_st num_players)
      ((([], []), players_list), players)
    (res.1.1, res.2)

/-- The rotation rule in the words of the spec (§4.1 step 3c):
"new list = [fixed] + old[2:] + [old[1]]". -/
def rotate_spec (l : List String) : List String :=
  [l.getD 0 ""] ++ l.drop 2 ++ [l.getD 1 ""]

/-- The circle method in the words of the spec (§4.1): fewer than 2 entries
give an empty Schedule; otherwise append one placeholder if the count is
odd, perform exactly `M - 1` iterations, in each iteration pair position
`i` with position `M - 1 - i` for `i` from `0` to `M / 2 - 1` in index
order (emitting the pair when neither side is the placeholder, and making
the other side the Bye when exactly one side is), and rotate with
`[fixed] + old[2:] + [old[1]]` between iterations. -/
def circle_method_spec (players : List String) :
    List (List (String × String)) × List String :=
  if players.length < 2 then ([], [])
  else
    let working := if players.length % 2 = 1 then players ++ ["BYE"]
      else players
    let M := working.length
    ((List.range (M - 1)).map (fun r =>
        (List.range (M / 2)).filterMap (fun i =>
          let x := (rotate_spec^[r] working).getD i ""
          let y := (rotate_spec^[r] working).getD (M - 1 - i) ""
          if x ≠ "BYE" ∧ y ≠ "BYE" then some (x, y) else none)),
     (List.range (M - 1)).map (fun r =>
        ((List.range (M / 2)).foldl (fun bb i =>
          let x := (rotate_spec^[r] working).getD i ""
          let y := (rotate_spec^[r] working).getD (M - 1 - i) ""
          if x = "BYE" ∧ y ≠ "BYE" then some y
          else if x ≠ "BYE" ∧ y = "BYE" then some x
          else bb) none).getD ""))

/-- The bye-assignment part of one inner-loop step (src/bot.py lines
73-80), isolated from the pairing list. -/
def byeStep (pl : List String) (M : Nat) (b : Option String) (i : Nat) :
    Option String :=
  let player1 := pl.getD i ""
  let player2 := pl.getD (M - 1 - i) ""
  if player1 ≠ "BYE" ∧ player2 ≠ "BYE" then b
  else if player1 ≠ "BYE" then some player1
  else if player2 ≠ "BYE" then some player2
  else b

/-- `pairMatch p q pr` holds when the emitted pairing `pr` is the unordered
pair `{p, q}` in either orientation. -/
def pairMatch (p q : String) (pr : String × String) : Bool :=
  decide (pr = (p, q) ∨ pr = (q, p))

/-- Number of occurrences of `p` among the two sides of the pairings of one
round (a pairing `(p, p)` would count twice). -/
def occCount (p : String) (round : List (String × String)) : Nat :=
  (round.map (fun pr =>
    (if pr.1 = p then 1 else 0) + (if pr.2 = p then 1 else 0))).sum

theorem posAfter_zero_rot (M j : Nat) (hM : 2 ≤ M) (hj : j < M) :
    posAfter M 0 j = j := by
  unfold posAfter
  split
  · omega
  · have : j - 1 < M - 1 := by omega
    rw [Nat.add_zero, Nat.mod_eq_of_lt this]
    omega

theorem posAfter_lt (M r j : Nat) (hM : 2 ≤ M) (_hj : j < M) :
    posAfter M r j < M := by
  unfold posAfter
  split
  · omega
  · have : (j - 1 + r) % (M - 1) < M - 1 := Nat.mod_lt _ (by omega)
    omega

theorem posAfter_eq_zero_iff (M r j : Nat) : posAfter M r j = 0 ↔ j = 0 := by
  unfold posAfter
  split
  · simp_all
  · simp_all

theorem posAfter_pos (M r j : Nat) (hj : 1 ≤ j) : 1 ≤ posAfter M r j := by
  unfold posAfter
  split
  · omega
  · omega

theorem rotateOnce_length (pl : List String) (h2 : 2 ≤ pl.length) :
    (rotateOnce pl).length = pl.length := by
  unfold rotateOnce
  simp
  omega

theorem iterate_rotateOnce_length (pl : List String) (r : Nat)
    (h2 : 2 ≤ pl.length) : (rotateOnce^[r] pl).length = pl.length := by
  induction r with
  | zero => rfl
  | succ r ih =>
    rw [Function.iterate_succ_apply', rotateOnce_length _ (by omega)]
    exact ih

theorem getD_default_irrel (l : List String) (n : Nat) (d d' : String)
    (h : n < l.length) : l.getD n d = l.getD n d' := by
  rw [List.getD_eq_getElem l d h, List.getD_eq_getElem l d' h]

theorem getD_drop_two (pl : List String) (k : Nat) (d : String)
    (hk : k < pl.length - 2) :
    (pl.drop 2).getD k d = pl.getD (2 + k) d := by
  rw [List.getD_eq_getElem _ _ (by simp; omega),
    List.getD_eq_getElem _ _ (by omega)]
  exact List.getElem_drop pl

theorem rotateOnce_getD (pl : List String) (j : Nat) (d : String)
    (h2 : 2 ≤ pl.length) (hj : j < pl.length) :
    (rotateOnce pl).getD j d = pl.getD (posAfter pl.length 1 j) d := by
  unfold rotateOnce
  have hlen1 : ([pl.getD 0 ""] ++ pl.drop 2).length = pl.length - 1 := by
    simp
    omega
  by_cases h0 : j = 0
  · subst h0
    have hp : posAfter pl.length 1 0 = 0 := by unfold posAfter; simp
    rw [hp, List.getD_append _ _ _ _ (by omega), List.getD_append _ _ _ _ (by simp)]
    have e1 : ([pl.getD 0 ""]).getD 0 d = pl.getD 0 "" := rfl
    rw [e1]
    exact getD_default_irrel pl 0 "" d (by omega)
  · by_cases hlast : j = pl.length - 1
    · have hp : posAfter pl.length 1 j = 1 := by
        unfold posAfter
        rw [if_neg h0]
        have : j - 1 + 1 = pl.length - 1 := by omega
        rw [this, Nat.mod_self]
      rw [hp, List.getD_append_right _ _ _ _ (by omega), hlen1, hlast]
      have : pl.length - 1 - (pl.length - 1) = 0 := by omega
      rw [this]
      have e1 : ([pl.getD 1 ""]).getD 0 d = pl.getD 1 "" := rfl
      rw [e1]
      exact getD_default_irrel pl 1 "" d (by omega)
    · have hp : posAfter pl.length 1 j = j + 1 := by
        unfold posAfter
        rw [if_neg h0]
        have hlt : j - 1 + 1 < pl.length - 1 := by omega
        rw [Nat.mod_eq_of_lt hlt]
        omega
      rw [hp, List.getD_append _ _ _ _ (by omega),
        List.getD_append_right _ _ _ _ (by simp; omega)]
      simp only [List.length_singleton]
      rw [getD_drop_two _ _ _ (by omega)]
      have : 2 + (j - 1) = j + 1 := by omega
      rw [this]

theorem posAfter_one_posAfter (M r j : Nat) (_hM : 2 ≤ M) (hj : 1 ≤ j) :
    posAfter M r (posAfter M 1 j) = posAfter M (r + 1) j := by
  have h1 : posAfter M 1 j = 1 + (j % (M - 1)) := by
    unfold posAfter
    rw [if_neg (by omega)]
    have : j - 1 + 1 = j := by omega
    rw [this]
  rw [h1]
  unfold posAfter
  rw [if_neg (by omega), if_neg (by omega)]
  congr 1
  have e1 : 1 + j % (M - 1) - 1 + r = j % (M - 1) + r := by omega
  have e2 : j - 1 + (r + 1) = j + r := by omega
  rw [e1, e2]
  exact (Nat.mod_modEq j (M - 1)).add_right r

theorem iterate_rotateOnce_getD (pl : List String) (r j : Nat) (d : String)
    (h2 : 2 ≤ pl.length) (hj : j < pl.length) :
    (rotateOnce^[r] pl).getD j d = pl.getD (posAfter pl.length r j) d := by
  induction r generalizing j with
  | zero =>
    rw [Function.iterate_zero_apply, posAfter_zero_rot _ _ h2 hj]
  | succ r ih =>
    rw [Function.iterate_succ_apply']
    have hlen : (rotateOnce^[r] pl).length = pl.length :=
      iterate_rotateOnce_length pl r h2
    rw [rotateOnce_getD _ _ _ (by omega) (by omega), hlen]
    rw [ih _ (posAfter_lt _ _ _ h2 hj)]
    by_cases h0 : j = 0
    · subst h0
      have hz : posAfter pl.length 1 0 = 0 := by unfold posAfter; simp
      rw [hz]
      have hz2 : ∀ s, posAfter pl.length s 0 = 0 := by
        intro s; unfold posAfter; simp
      rw [hz2, hz2]
    · congr 1
      exact posAfter_one_posAfter pl.length r j h2 (by omega)

/-! ### Unfolding the outer loop -/

theorem outerStep_foldl (M k : Nat) (pl : List String)
    (R : List (List (String × String))) (B : List String) :
    (List.range k).foldl (outerStep M) ((R, B), pl) =
      ((R ++ (List.range k).map (fun r => (innerLoop M (rotateOnce^[r] pl)).1),
        B ++ (List.range k).map
          (fun r => (innerLoop M (rotateOnce^[r] pl)).2.getD "")),
       rotateOnce^[k] pl) := by
  induction k with
  | zero => simp
  | succ k ih =>
    rw [List.range_succ, List.foldl_append, ih]
    simp only [List.foldl_cons, List.foldl_nil, List.map_append, List.map_cons,
      List.map_nil, outerStep, Function.iterate_succ_apply']
    simp [List.append_assoc]

theorem generate_round_robin_eq (players : List String)
    (h2 : 2 ≤ players.length) :
    generate_round_robin players =
      ((List.range ((workingList players).length - 1)).map
        (fun r => (innerLoop (workingList players).length
          (rotateOnce^[r] (workingList players))).1),
       (List.range ((workingList players).length - 1)).map
        (fun r => (innerLoop (workingList players).length
          (rotateOnce^[r] (workingList players))).2.getD "")) := by
  unfold generate_round_robin
  simp only []
  rw [if_neg (by omega), outerStep_foldl]
  simp

theorem workingList_length_mod (players : List String) :
    (workingList players).length % 2 = 0 := by
  unfold workingList
  split
  · rw [List.length_append]
    simp only [List.length_singleton]
    omega
  · omega

theorem workingList_length_ge (players : List String)
    (h2 : 2 ≤ players.length) : 2 ≤ (workingList players).length := by
  unfold workingList
  split
  · rw [List.length_append]
    simp only [List.length_singleton]
    omega
  · exact h2

theorem workingList_length_even (players : List String)
    (h : players.length % 2 = 0) :
    (workingList players).length = players.length := by
  unfold workingList
  rw [if_neg (by omega)]

theorem workingList_length_odd (players : List String)
    (h : players.length % 2 = 1) :
    (workingList players).length = players.length + 1 := by
  unfold workingList
  rw [if_pos h]
  simp

/-! ### Unfolding the inner loop: the pairings -/

theorem innerStep_foldl_fst (pl : List String) (M : Nat) (l : List Nat) :
    ∀ acc : List (String × String) × Option String,
    (l.foldl (innerStep pl M) acc).1 = acc.1 ++ l.filterMap (fun i =>
      if pl.getD i "" ≠ "BYE" ∧ pl.getD (M - 1 - i) "" ≠ "BYE"
      then some (pl.getD i "", pl.getD (M - 1 - i) "") else none) := by
  induction l with
  | nil => simp
  | cons a t ih =>
    intro acc
    rw [List.foldl_cons, ih, List.filterMap_cons]
    simp only [innerStep]
    split
    · simp
    · split
      · simp
      · split
        · simp
        · simp

theorem innerLoop_fst (M : Nat) (pl : List String) :
    (innerLoop M pl).1 = (List.range (M / 2)).filterMap (fun i =>
      if pl.getD i "" ≠ "BYE" ∧ pl.getD (M - 1 - i) "" ≠ "BYE"
      then some (pl.getD i "", pl.getD (M - 1 - i) "") else none) := by
  unfold innerLoop
  rw [innerStep_foldl_fst]
  simp

/-! ### Unfolding the inner loop: the bye -/

theorem innerStep_foldl_snd (pl : List String) (M : Nat) (l : List Nat) :
    ∀ acc : List (String × String) × Option String,
    (l.foldl (innerStep pl M) acc).2 = l.foldl (byeStep pl M) acc.2 := by
  induction l with
  | nil => simp
  | cons a t ih =>
    intro acc
    rw [List.foldl_cons, ih, List.foldl_cons]
    simp only [innerStep, byeStep]
    split
    · rfl
    · split
      · rfl
      · split
        · rfl
        · rfl

theorem innerLoop_snd (M : Nat) (pl : List String) :
    (innerLoop M pl).2 = (List.range (M / 2)).foldl (byeStep pl M) none := by
  unfold innerLoop
  rw [innerStep_foldl_snd]

theorem byeStep_of_real (pl : List String) (M : Nat) (b : Option String)
    (i : Nat) (h1 : pl.getD i "" ≠ "BYE") (h2 : pl.getD (M - 1 - i) "" ≠ "BYE") :
    byeStep pl M b i = b := by
  simp only [byeStep]
  rw [if_pos ⟨h1, h2⟩]

theorem foldl_byeStep_id (pl : List String) (M : Nat) (l : List Nat)
    (h : ∀ i ∈ l, ∀ b, byeStep pl M b i = b) :
    ∀ b, l.foldl (byeStep pl M) b = b := by
  induction l with
  | nil => intro b; rfl
  | cons a t ih =>
    intro b
    rw [List.foldl_cons, h a (by simp)]
    exact ih (fun i hi => h i (by simp [hi])) b

theorem foldl_byeStep_write (pl : List String) (M : Nat) (l : List Nat)
    (i₀ : Nat) (v : String) (hmem : i₀ ∈ l)
    (hothers : ∀ i ∈ l, i ≠ i₀ → ∀ b, byeStep pl M b i = b)
    (hwrite : ∀ b, byeStep pl M b i₀ = some v) :
    ∀ b, l.foldl (byeStep pl M) b = some v := by
  induction l with
  | nil => simp at hmem
  | cons a t ih =>
    intro b
    rw [List.foldl_cons]
    by_cases ht : i₀ ∈ t
    · exact ih ht (fun i hi => hothers i (by simp [hi])) _
    · have ha : a = i₀ := by
        rcases List.mem_cons.mp hmem with h | h
        · omega
        · exact absurd h ht
      subst ha
      rw [hwrite b]
      refine foldl_byeStep_id pl M t ?_ _
      intro i hi b'
      exact hothers i (by simp [hi]) (by rintro rfl; exact ht hi) b'

theorem foldl_byeStep_some (pl : List String) (M : Nat) (l : List Nat)
    (v : String) :
    ∀ b, l.foldl (byeStep pl M) b = some v →
      b = some v ∨ ∃ i ∈ l,
        ¬(pl.getD i "" ≠ "BYE" ∧ pl.getD (M - 1 - i) "" ≠ "BYE") ∧
        ((pl.getD i "" ≠ "BYE" ∧ v = pl.getD i "") ∨
         (pl.getD i "" = "BYE" ∧ pl.getD (M - 1 - i) "" ≠ "BYE" ∧
           v = pl.getD (M - 1 - i) "")) := by
  induction l with
  | nil => intro b h; exact Or.inl h
  | cons a t ih =>
    intro b h
    rw [List.foldl_cons] at h
    rcases ih _ h with h' | ⟨i, hi, hcond, hval⟩
    · revert h'
      simp only [byeStep]
      split
      · exact fun h' => Or.inl h'
      · rename_i hc1
        split
        · rename_i hc2
          intro h'
          refine Or.inr ⟨a, by simp, hc1, Or.inl ⟨hc2, ?_⟩⟩
          simpa using h'.symm
        · rename_i hc2
          split
          · rename_i hc3
            intro h'
            refine Or.inr ⟨a, by simp, hc1, Or.inr ⟨by simpa using hc2, hc3, ?_⟩⟩
            simpa using h'.symm
          · exact fun h' => Or.inl h'
    · exact Or.inr ⟨i, by simp [hi], hcond, hval⟩

/-! ### The circle-method core: every pair of positions meets exactly once

Working in `ZMod (M - 1)`: position `0` is fixed and the other `M - 1`
positions rotate cyclically, so positions `1 + x` and `1 + y` are paired in
round `r` exactly when `x + y ≡ 2 r - 2 (mod M - 1)`; since `M` is even,
`2` is invertible mod `M - 1` and the round is unique. -/

theorem half_mul_two (M : Nat) (hM : 2 ≤ M) (he : M % 2 = 0) :
    ((M / 2 : Nat) : ZMod (M - 1)) * 2 = 1 := by
  have h1 : (M / 2) * 2 = (M - 1) + 1 := by omega
  calc ((M / 2 : Nat) : ZMod (M - 1)) * 2
      = (((M / 2) * 2 : Nat) : ZMod (M - 1)) := by push_cast; ring
    _ = (((M - 1) + 1 : Nat) : ZMod (M - 1)) := by rw [h1]
    _ = ((M - 1 : Nat) : ZMod (M - 1)) + 1 := by rw [Nat.cast_add, Nat.cast_one]
    _ = 0 + 1 := by rw [ZMod.natCast_self]
    _ = 1 := by rw [zero_add]

theorem zmod_cancel_two (M : Nat) (hM : 2 ≤ M) (he : M % 2 = 0)
    (x y : ZMod (M - 1)) (h : 2 * x = 2 * y) : x = y := by
  have h2 := half_mul_two M hM he
  calc x = 1 * x := (one_mul x).symm
    _ = (((M / 2 : Nat) : ZMod (M - 1)) * 2) * x := by rw [h2]
    _ = ((M / 2 : Nat) : ZMod (M - 1)) * (2 * x) := by ring
    _ = ((M / 2 : Nat) : ZMod (M - 1)) * (2 * y) := by rw [h]
    _ = (((M / 2 : Nat) : ZMod (M - 1)) * 2) * y := by ring
    _ = y := by rw [h2, one_mul]

theorem zmod_natCast_inj (m a b : Nat) (ha : a < m) (hb : b < m)
    (h : ((a : Nat) : ZMod m) = ((b : Nat) : ZMod m)) : a = b := by
  rw [ZMod.natCast_eq_natCast_iff'] at h
  rw [Nat.mod_eq_of_lt ha, Nat.mod_eq_of_lt hb] at h
  exact h

theorem posAfter_eq_one_add_iff (M r j c : Nat) (_hM : 2 ≤ M) (hj : 1 ≤ j)
    (hc : c < M - 1) :
    posAfter M r j = 1 + c ↔
      ((j - 1 + r : Nat) : ZMod (M - 1)) = ((c : Nat) : ZMod (M - 1)) := by
  unfold posAfter
  rw [if_neg (by omega), ZMod.natCast_eq_natCast_iff', Nat.mod_eq_of_lt hc]
  constructor
  · intro h; omega
  · intro h; omega

theorem cast_index_sub (m j r : Nat) (hj : 1 ≤ j) :
    ((j - 1 + r : Nat) : ZMod m) =
      ((j : Nat) : ZMod m) - 1 + ((r : Nat) : ZMod m) := by
  rw [Nat.cast_add, Nat.cast_sub hj, Nat.cast_one]

theorem cast_partner_sub (m i r : Nat) (hi : i + 1 ≤ m) :
    ((m - i - 1 + r : Nat) : ZMod m) =
      -((i : Nat) : ZMod m) - 1 + ((r : Nat) : ZMod m) := by
  have e : m - i - 1 = m - (i + 1) := by omega
  rw [e, Nat.cast_add, Nat.cast_sub hi, ZMod.natCast_self]
  push_cast
  ring

theorem meets_char (M r i s t : Nat) (hM : 2 ≤ M) (hi1 : 1 ≤ i) (hi : i < M / 2)
    (hs : s < M - 1) (ht : t < M - 1)
    (h1 : posAfter M r i = 1 + s) (h2 : posAfter M r (M - 1 - i) = 1 + t) :
    2 * ((r : Nat) : ZMod (M - 1)) =
        ((s : Nat) : ZMod (M - 1)) + ((t : Nat) : ZMod (M - 1)) + 2 ∧
      ((i : Nat) : ZMod (M - 1)) =
        ((s : Nat) : ZMod (M - 1)) - ((r : Nat) : ZMod (M - 1)) + 1 := by
  have hiM : i + 1 ≤ M - 1 := by omega
  rw [posAfter_eq_one_add_iff M r i s hM hi1 hs,
    cast_index_sub (M - 1) i r hi1] at h1
  rw [posAfter_eq_one_add_iff M r (M - 1 - i) t hM (by omega) ht,
    cast_partner_sub (M - 1) i r hiM] at h2
  constructor
  · linear_combination h1 + h2
  · linear_combination h1

theorem pair_meets_exists (M a b : Nat) (hM : 2 ≤ M) (he : M % 2 = 0)
    (ha : a < M) (hb : b < M) (hab : a ≠ b) :
    ∃ r i, r < M - 1 ∧ i < M / 2 ∧
      ((posAfter M r i = a ∧ posAfter M r (M - 1 - i) = b) ∨
       (posAfter M r i = b ∧ posAfter M r (M - 1 - i) = a)) := by
  haveI : NeZero (M - 1) := ⟨by omega⟩
  have hposM : 0 < M - 1 := by omega
  have key0 : ∀ s : Nat, s < M - 1 →
      posAfter M ((1 + s) % (M - 1)) (M - 1) = 1 + s := by
    intro s hs
    rw [posAfter_eq_one_add_iff M _ _ s hM (by omega) hs,
      ZMod.natCast_eq_natCast_iff']
    have step1 : (M - 1 - 1 + (1 + s) % (M - 1)) % (M - 1) =
        (M - 1 - 1 + (1 + s)) % (M - 1) :=
      Nat.ModEq.add_left _ (Nat.mod_modEq (1 + s) (M - 1))
    rw [step1]
    have e2 : M - 1 - 1 + (1 + s) = s + (M - 1) := by omega
    rw [e2, Nat.add_mod_right]
  by_cases ha0 : a = 0
  · have hb1 : b - 1 < M - 1 := by omega
    refine ⟨(1 + (b - 1)) % (M - 1), 0, Nat.mod_lt _ hposM, by omega,
      Or.inl ⟨?_, ?_⟩⟩
    · rw [ha0]; unfold posAfter; simp
    · have e0 : M - 1 - 0 = M - 1 := by omega
      rw [e0, key0 (b - 1) hb1]
      omega
  by_cases hb0 : b = 0
  · have ha1 : a - 1 < M - 1 := by omega
    refine ⟨(1 + (a - 1)) % (M - 1), 0, Nat.mod_lt _ hposM, by omega,
      Or.inr ⟨?_, ?_⟩⟩
    · rw [hb0]; unfold posAfter; simp
    · have e0 : M - 1 - 0 = M - 1 := by omega
      rw [e0, key0 (a - 1) ha1]
      omega
  · have hs : a - 1 < M - 1 := by omega
    have ht : b - 1 < M - 1 := by omega
    set u : ZMod (M - 1) := ((M / 2 : Nat) : ZMod (M - 1)) *
      (((a - 1 : Nat) : ZMod (M - 1)) + ((b - 1 : Nat) : ZMod (M - 1)) + 2)
      with hu_def
    have hr : u.val < M - 1 := ZMod.val_lt u
    have hu_cast : ((u.val : Nat) : ZMod (M - 1)) = u :=
      ZMod.natCast_rightInverse u
    have key2 : 2 * u =
        ((a - 1 : Nat) : ZMod (M - 1)) + ((b - 1 : Nat) : ZMod (M - 1)) + 2 := by
      have h2 := half_mul_two M hM he
      rw [hu_def]
      linear_combination (((a - 1 : Nat) : ZMod (M - 1)) +
        ((b - 1 : Nat) : ZMod (M - 1)) + 2) * h2
    set v : ZMod (M - 1) := ((a - 1 : Nat) : ZMod (M - 1)) - u + 1 with hv_def
    have hv0 : v ≠ 0 := by
      intro h0
      have e1 : ((a - 1 : Nat) : ZMod (M - 1)) = u - 1 := by
        rw [hv_def] at h0
        linear_combination h0
      have e2 : 2 * ((a - 1 : Nat) : ZMod (M - 1)) =
          ((a - 1 : Nat) : ZMod (M - 1)) + ((b - 1 : Nat) : ZMod (M - 1)) := by
        linear_combination 2 * e1 + key2
      have e3 : a - 1 = b - 1 := by
        apply zmod_natCast_inj (M - 1) _ _ hs ht
        linear_combination e2
      omega
    have hvval1 : 1 ≤ v.val := by
      rcases Nat.eq_zero_or_pos v.val with h0 | h1
      · exact absurd ((ZMod.val_eq_zero v).mp h0) hv0
      · omega
    have hvvalm : v.val < M - 1 := ZMod.val_lt v
    have hv_cast : ((v.val : Nat) : ZMod (M - 1)) = v :=
      ZMod.natCast_rightInverse v
    have kA : posAfter M u.val v.val = a := by
      have e1 : a = 1 + (a - 1) := by omega
      rw [e1, posAfter_eq_one_add_iff M u.val v.val (a - 1) hM hvval1 hs,
        cast_index_sub (M - 1) v.val u.val hvval1, hv_cast, hu_cast, hv_def]
      ring
    have kB : posAfter M u.val (M - 1 - v.val) = b := by
      have e1 : b = 1 + (b - 1) := by omega
      rw [e1, posAfter_eq_one_add_iff M u.val (M - 1 - v.val) (b - 1) hM
          (by omega) ht,
        cast_partner_sub (M - 1) v.val u.val (by omega), hv_cast, hu_cast,
        hv_def]
      linear_combination key2
    by_cases hcase : v.val < M / 2
    · exact ⟨u.val, v.val, by omega, hcase, Or.inl ⟨kA, kB⟩⟩
    · refine ⟨u.val, M - 1 - v.val, by omega, by omega, Or.inr ⟨kB, ?_⟩⟩
      have e : M - 1 - (M - 1 - v.val) = v.val := by omega
      rw [e]
      exact kA

theorem pair_meets_unique (M a b r i r' i' : Nat) (hM : 2 ≤ M) (he : M % 2 = 0)
    (ha : a < M) (hb : b < M) (hab : a ≠ b)
    (hr : r < M - 1) (hi : i < M / 2) (hr' : r' < M - 1) (hi' : i' < M / 2)
    (h : (posAfter M r i = a ∧ posAfter M r (M - 1 - i) = b) ∨
         (posAfter M r i = b ∧ posAfter M r (M - 1 - i) = a))
    (h' : (posAfter M r' i' = a ∧ posAfter M r' (M - 1 - i') = b) ∨
          (posAfter M r' i' = b ∧ posAfter M r' (M - 1 - i') = a)) :
    r = r' ∧ i = i' := by
  haveI : NeZero (M - 1) := ⟨by omega⟩
  have same_round : ∀ rr rr' c, 1 ≤ c → c < M → rr < M - 1 → rr' < M - 1 →
      posAfter M rr (M - 1) = c → posAfter M rr' (M - 1) = c → rr = rr' := by
    intro rr rr' c hc1 hcM hrr hrr' hw hw'
    have e : c = 1 + (c - 1) := by omega
    rw [e] at hw hw'
    rw [posAfter_eq_one_add_iff M rr (M - 1) (c - 1) hM (by omega)
      (by omega)] at hw
    rw [posAfter_eq_one_add_iff M rr' (M - 1) (c - 1) hM (by omega)
      (by omega)] at hw'
    have hcast : ((M - 1 - 1 + rr : Nat) : ZMod (M - 1)) =
        ((M - 1 - 1 + rr' : Nat) : ZMod (M - 1)) := by rw [hw, hw']
    rw [ZMod.natCast_eq_natCast_iff'] at hcast
    have hmodeq : rr % (M - 1) = rr' % (M - 1) :=
      Nat.ModEq.add_left_cancel' (M - 1 - 1) hcast
    rw [Nat.mod_eq_of_lt hrr, Nat.mod_eq_of_lt hrr'] at hmodeq
    exact hmodeq
  by_cases ha0 : a = 0
  · have extract : ∀ rr ii, ii < M / 2 →
        ((posAfter M rr ii = a ∧ posAfter M rr (M - 1 - ii) = b) ∨
         (posAfter M rr ii = b ∧ posAfter M rr (M - 1 - ii) = a)) →
        ii = 0 ∧ posAfter M rr (M - 1) = b := by
      intro rr ii hii hh
      rcases hh with ⟨h1, h2⟩ | ⟨h1, h2⟩
      · have hz : ii = 0 := (posAfter_eq_zero_iff M rr ii).mp (by omega)
        subst hz
        have e0 : M - 1 - 0 = M - 1 := by omega
        rw [e0] at h2
        exact ⟨rfl, h2⟩
      · exfalso
        have h3 : M - 1 - ii = 0 := (posAfter_eq_zero_iff M rr _).mp (by omega)
        omega
    obtain ⟨hi0, hw⟩ := extract r i hi h
    obtain ⟨hi0', hw'⟩ := extract r' i' hi' h'
    exact ⟨same_round r r' b (by omega) hb hr hr' hw hw', by omega⟩
  by_cases hb0 : b = 0
  · have extract : ∀ rr ii, ii < M / 2 →
        ((posAfter M rr ii = a ∧ posAfter M rr (M - 1 - ii) = b) ∨
         (posAfter M rr ii = b ∧ posAfter M rr (M - 1 - ii) = a)) →
        ii = 0 ∧ posAfter M rr (M - 1) = a := by
      intro rr ii hii hh
      rcases hh with ⟨h1, h2⟩ | ⟨h1, h2⟩
      · exfalso
        have h3 : M - 1 - ii = 0 := (posAfter_eq_zero_iff M rr _).mp (by omega)
        omega
      · have hz : ii = 0 := (posAfter_eq_zero_iff M rr ii).mp (by omega)
        subst hz
        have e0 : M - 1 - 0 = M - 1 := by omega
        rw [e0] at h2
        exact ⟨rfl, h2⟩
    obtain ⟨hi0, hw⟩ := extract r i hi h
    obtain ⟨hi0', hw'⟩ := extract r' i' hi' h'
    exact ⟨same_round r r' a (by omega) ha hr hr' hw hw', by omega⟩
  · have key : ∀ rr ii, ii < M / 2 →
        ((posAfter M rr ii = a ∧ posAfter M rr (M - 1 - ii) = b) ∨
         (posAfter M rr ii = b ∧ posAfter M rr (M - 1 - ii) = a)) →
        1 ≤ ii ∧
        2 * ((rr : Nat) : ZMod (M - 1)) =
          ((a - 1 : Nat) : ZMod (M - 1)) + ((b - 1 : Nat) : ZMod (M - 1)) + 2 ∧
        (((ii : Nat) : ZMod (M - 1)) =
            ((a - 1 : Nat) : ZMod (M - 1)) - ((rr : Nat) : ZMod (M - 1)) + 1 ∨
         ((ii : Nat) : ZMod (M - 1)) =
            ((b - 1 : Nat) : ZMod (M - 1)) - ((rr : Nat) : ZMod (M - 1)) + 1) := by
      intro rr ii hii hh
      have hii1 : 1 ≤ ii := by
        rcases hh with ⟨h1, _⟩ | ⟨h1, _⟩ <;>
        · by_contra h0
          have hz : ii = 0 := by omega
          subst hz
          have hpz : posAfter M rr 0 = 0 := by unfold posAfter; simp
          omega
      refine ⟨hii1, ?_⟩
      rcases hh with ⟨h1, h2⟩ | ⟨h1, h2⟩
      · have e1 : a = 1 + (a - 1) := by omega
        have e2 : b = 1 + (b - 1) := by omega
        rw [e1] at h1; rw [e2] at h2
        obtain ⟨c1, c2⟩ := meets_char M rr ii (a - 1) (b - 1) hM hii1 hii
          (by omega) (by omega) h1 h2
        exact ⟨c1, Or.inl c2⟩
      · have e1 : b = 1 + (b - 1) := by omega
        have e2 : a = 1 + (a - 1) := by omega
        rw [e1] at h1; rw [e2] at h2
        obtain ⟨c1, c2⟩ := meets_char M rr ii (b - 1) (a - 1) hM hii1 hii
          (by omega) (by omega) h1 h2
        exact ⟨by linear_combination c1, Or.inr c2⟩
    obtain ⟨hi1, k1, k2⟩ := key r i hi h
    obtain ⟨hi1', k1', k2'⟩ := key r' i' hi' h'
    have hrr : r = r' := by
      have hcast : ((r : Nat) : ZMod (M - 1)) = ((r' : Nat) : ZMod (M - 1)) :=
        zmod_cancel_two M hM he _ _ (by rw [k1, k1'])
      exact zmod_natCast_inj (M - 1) r r' hr hr' hcast
    subst hrr
    refine ⟨rfl, ?_⟩
    have hiM : i < M - 1 := by omega
    have hiM' : i' < M - 1 := by omega
    have crossed : ∀ ii ii', 1 ≤ ii → 1 ≤ ii' → ii < M / 2 → ii' < M / 2 →
        ((ii : Nat) : ZMod (M - 1)) =
          ((a - 1 : Nat) : ZMod (M - 1)) - ((r : Nat) : ZMod (M - 1)) + 1 →
        ((ii' : Nat) : ZMod (M - 1)) =
          ((b - 1 : Nat) : ZMod (M - 1)) - ((r : Nat) : ZMod (M - 1)) + 1 →
        False := by
      intro ii ii' hg1 hg1' hgM hgM' e e'
      have hsum : ((ii + ii' : Nat) : ZMod (M - 1)) =
          ((0 : Nat) : ZMod (M - 1)) := by
        push_cast
        push_cast at e e' k1
        linear_combination e + e' - k1
      rw [ZMod.natCast_eq_natCast_iff'] at hsum
      rw [Nat.zero_mod, Nat.mod_eq_of_lt (by omega)] at hsum
      omega
    rcases k2 with e | e <;> rcases k2' with e' | e'
    · exact zmod_natCast_inj (M - 1) i i' hiM hiM' (by rw [e, e'])
    · exact absurd (crossed i i' hi1 hi1' hi hi' e e') (fun h => h)
    · exact absurd (crossed i' i hi1' hi1 hi' hi e' e) (fun h => h)
    · exact zmod_natCast_inj (M - 1) i i' hiM hiM' (by rw [e, e'])

/-! ### Counting helpers -/

theorem countP_filterMap {α β : Type} (f : α → Option β) (p : β → Bool)
    (l : List α) :
    (l.filterMap f).countP p = l.countP (fun a => ((f a).map p).getD false) := by
  induction l with
  | nil => rfl
  | cons a t ih =>
    rw [List.filterMap_cons]
    cases hfa : f a with
    | none => simp [List.countP_cons, hfa, ih]
    | some b => simp [List.countP_cons, hfa, ih]

theorem length_filterMap_countP {α β : Type} (f : α → Option β) (l : List α) :
    (l.filterMap f).length = l.countP (fun a => (f a).isSome) := by
  induction l with
  | nil => rfl
  | cons a t ih =>
    rw [List.filterMap_cons]
    cases hfa : f a with
    | none => simp [List.countP_cons, hfa, ih]
    | some b => simp [List.countP_cons, hfa, ih]

theorem sum_map_range_ite (n r₀ : Nat) (f : Nat → Nat) (hr : r₀ < n)
    (hf : ∀ r, r < n → f r = if r = r₀ then 1 else 0) :
    ((List.range n).map f).sum = 1 := by
  induction n with
  | zero => omega
  | succ n ih =>
    rw [List.range_succ, List.map_append, List.sum_append]
    simp only [List.map_cons, List.map_nil, List.sum_cons, List.sum_nil]
    by_cases h : r₀ = n
    · subst h
      have hzero : ((List.range r₀).map f).sum = 0 := by
        apply List.sum_eq_zero
        intro x hx
        rw [List.mem_map] at hx
        obtain ⟨r, hrmem, rfl⟩ := hx
        rw [List.mem_range] at hrmem
        rw [hf r (by omega), if_neg (by omega)]
      rw [hzero, hf r₀ (by omega), if_pos rfl]
      omega
    · rw [ih (by omega) (fun r hr2 => hf r (by omega)), hf n (by omega),
        if_neg (by omega)]
      omega

theorem countP_range_unique (p : Nat → Bool) (n i₀ : Nat) (hi : i₀ < n)
    (hp : ∀ i, i < n → (p i = true ↔ i = i₀)) :
    (List.range n).countP p = 1 := by
  induction n with
  | zero => omega
  | succ n ih =>
    rw [List.range_succ, List.countP_append]
    simp only [List.countP_cons, List.countP_nil]
    by_cases h : i₀ = n
    · subst h
      have hz : (List.range i₀).countP p = 0 := by
        rw [List.countP_eq_zero]
        intro a ha hpa
        rw [List.mem_range] at ha
        have := (hp a (by omega)).mp hpa
        omega
      rw [hz, if_pos ((hp i₀ (by omega)).mpr rfl)]
    · rw [ih (by omega) (fun i h2 => hp i (by omega)),
        if_neg (fun hpn => h ((hp n (by omega)).mp hpn).symm)]

theorem countP_range_unique_false (p : Nat → Bool) (n i₀ : Nat) (hi : i₀ < n)
    (hp : ∀ i, i < n → (p i = false ↔ i = i₀)) :
    (List.range n).countP p = n - 1 := by
  induction n with
  | zero => omega
  | succ n ih =>
    rw [List.range_succ, List.countP_append]
    simp only [List.countP_cons, List.countP_nil]
    by_cases h : i₀ = n
    · subst h
      have hfull : (List.range i₀).countP p = i₀ := by
        have hall : ∀ a ∈ List.range i₀, p a = true := by
          intro a ha
          rw [List.mem_range] at ha
          rcases hb : p a with _ | _
          · exact absurd ((hp a (by omega)).mp hb) (by omega)
          · rfl
        rw [List.countP_eq_length.mpr hall, List.length_range]
      rw [hfull, if_neg (by rw [(hp i₀ (by omega)).mpr rfl]; simp)]
      omega
    · rw [ih (by omega) (fun i h2 => hp i (by omega))]
      have hpn : p n = true := by
        rcases hb : p n with _ | _
        · exact absurd ((hp n (by omega)).mp hb).symm h
        · rfl
      rw [if_pos hpn]
      omega

theorem countP_range_all (p : Nat → Bool) (n : Nat)
    (hp : ∀ i, i < n → p i = true) :
    (List.range n).countP p = n := by
  have := List.countP_eq_length.mpr (fun a ha => hp a (List.mem_range.mp ha))
  rw [this, List.length_range]

theorem getD_map_range {β : Type} (n r : Nat) (f : Nat → β) (d : β)
    (hr : r < n) :
    ((List.range n).map f).getD r d = f r := by
  rw [List.getD_eq_getElem _ _ (by simp [hr])]
  simp

theorem getD_ne_of_not_mem (l : List String) (n : Nat) (h : "BYE" ∉ l) :
    l.getD n "" ≠ "BYE" := by
  by_cases hn : n < l.length
  · rw [List.getD_eq_getElem _ _ hn]
    intro heq
    exact h (heq ▸ List.getElem_mem hn)
  · rw [List.getD_eq_default _ _ (by omega)]
    decide

theorem mem_getD (l : List String) (x : String) (h : x ∈ l) :
    ∃ n, n < l.length ∧ l.getD n "" = x := by
  obtain ⟨n, hn, he⟩ := List.getElem_of_mem h
  exact ⟨n, hn, by rw [List.getD_eq_getElem _ _ hn]; exact he⟩

theorem getD_mem (l : List String) (n : Nat) (hn : n < l.length) :
    l.getD n "" ∈ l := by
  rw [List.getD_eq_getElem _ _ hn]
  exact List.getElem_mem hn

theorem nodup_getD_inj (l : List String) (hnd : l.Nodup) (x y : Nat)
    (hx : x < l.length) (hy : y < l.length)
    (h : l.getD x "" = l.getD y "") : x = y := by
  rw [List.getD_eq_getElem _ _ hx, List.getD_eq_getElem _ _ hy] at h
  exact (List.Nodup.getElem_inj_iff hnd).mp h

/-! ### Round-level characterization of the generated schedule -/

theorem generate_small (players : List String) (h : players.length < 2) :
    generate_round_robin players = ([], []) := by
  unfold generate_round_robin
  simp [h]

theorem generate_fst_eq (players : List String) (h2 : 2 ≤ players.length) :
    (generate_round_robin players).1 =
      (List.range ((workingList players).length - 1)).map
        (fun r => (innerLoop (workingList players).length
          (rotateOnce^[r] (workingList players))).1) := by
  rw [generate_round_robin_eq players h2]

theorem generate_snd_eq (players : List String) (h2 : 2 ≤ players.length) :
    (generate_round_robin players).2 =
      (List.range ((workingList players).length - 1)).map
        (fun r => (innerLoop (workingList players).length
          (rotateOnce^[r] (workingList players))).2.getD "") := by
  rw [generate_round_robin_eq players h2]

theorem rounds_length (players : List String) (h2 : 2 ≤ players.length) :
    (generate_round_robin players).1.length =
      (workingList players).length - 1 := by
  rw [generate_fst_eq players h2]
  simp

theorem byes_length (players : List String) (h2 : 2 ≤ players.length) :
    (generate_round_robin players).2.length =
      (workingList players).length - 1 := by
  rw [generate_snd_eq players h2]
  simp

theorem posAfter_inj (M r j j' : Nat) (hM : 2 ≤ M) (hj : j < M) (hj' : j' < M)
    (h : posAfter M r j = posAfter M r j') : j = j' := by
  have hz : ∀ k, posAfter M r 0 = 0 ∧ (posAfter M r k = 0 → k = 0) := by
    intro k
    exact ⟨by unfold posAfter; simp, fun hk => (posAfter_eq_zero_iff M r k).mp hk⟩
  by_cases h0 : j = 0
  · subst h0
    have : posAfter M r j' = 0 := by
      have := (hz j').1
      omega
    exact ((hz j').2 this).symm
  · by_cases h0' : j' = 0
    · exfalso
      subst h0'
      have : posAfter M r j = 0 := by
        have := (hz j).1
        omega
      exact h0 ((hz j).2 this)
    · unfold posAfter at h
      rw [if_neg h0, if_neg h0'] at h
      have hmm : (j - 1 + r) % (M - 1) = (j' - 1 + r) % (M - 1) := by omega
      have hm : (j - 1) % (M - 1) = (j' - 1) % (M - 1) :=
        Nat.ModEq.add_right_cancel' r hmm
      rw [Nat.mod_eq_of_lt (by omega), Nat.mod_eq_of_lt (by omega)] at hm
      omega

theorem posAfter_surj (M r c : Nat) (hM : 2 ≤ M) (hc : c < M) :
    ∃ j, j < M ∧ posAfter M r j = c := by
  by_cases hc0 : c = 0
  · exact ⟨0, by omega, by rw [hc0]; unfold posAfter; simp⟩
  · refine ⟨1 + ((c - 1 + ((M - 1) - r % (M - 1))) % (M - 1)), ?_, ?_⟩
    · have := Nat.mod_lt (c - 1 + ((M - 1) - r % (M - 1)))
        (show 0 < M - 1 by omega)
      omega
    · unfold posAfter
      rw [if_neg (by omega)]
      have e1 : 1 + ((c - 1 + ((M - 1) - r % (M - 1))) % (M - 1)) - 1 + r
          = ((c - 1 + ((M - 1) - r % (M - 1))) % (M - 1)) + r := by omega
      rw [e1]
      have step : ((c - 1 + ((M - 1) - r % (M - 1))) % (M - 1) + r) % (M - 1)
          = ((c - 1 + ((M - 1) - r % (M - 1))) + r) % (M - 1) :=
        Nat.ModEq.add_right r (Nat.mod_modEq _ _)
      rw [step]
      have h1 : r % (M - 1) < M - 1 := Nat.mod_lt _ (by omega)
      have hcong1 : ((M - 1) - r % (M - 1)) + r ≡ 0 [MOD (M - 1)] := by
        calc ((M - 1) - r % (M - 1)) + r
            ≡ ((M - 1) - r % (M - 1)) + r % (M - 1) [MOD (M - 1)] :=
              Nat.ModEq.add_left _ (Nat.mod_modEq r (M - 1)).symm
          _ = M - 1 := by omega
          _ ≡ 0 [MOD (M - 1)] := Nat.modEq_zero_iff_dvd.mpr dvd_rfl
      have hcong2 : (c - 1 + ((M - 1) - r % (M - 1)) + r) % (M - 1)
          = (c - 1 + 0) % (M - 1) := by
        calc c - 1 + ((M - 1) - r % (M - 1)) + r
            = c - 1 + (((M - 1) - r % (M - 1)) + r) := by omega
          _ ≡ c - 1 + 0 [MOD M - 1] := Nat.ModEq.add_left _ hcong1
      rw [hcong2, Nat.add_zero, Nat.mod_eq_of_lt (by omega)]
      omega

theorem round_pairs_eq (players : List String) (h2 : 2 ≤ players.length)
    (r : Nat) (hr : r < (workingList players).length - 1) :
    (generate_round_robin players).1.getD r [] =
      (List.range ((workingList players).length / 2)).filterMap (fun i =>
        if (workingList players).getD
              (posAfter (workingList players).length r i) "" ≠ "BYE" ∧
            (workingList players).getD (posAfter (workingList players).length r
              ((workingList players).length - 1 - i)) "" ≠ "BYE"
        then some
          ((workingList players).getD
            (posAfter (workingList players).length r i) "",
           (workingList players).getD (posAfter (workingList players).length r
            ((workingList players).length - 1 - i)) "")
        else none) := by
  rw [generate_fst_eq players h2, getD_map_range _ _ _ _ hr, innerLoop_fst]
  apply List.filterMap_congr
  intro i hi
  rw [List.mem_range] at hi
  have hM2 : 2 ≤ (workingList players).length := workingList_length_ge players h2
  rw [iterate_rotateOnce_getD _ _ _ _ hM2 (by omega),
    iterate_rotateOnce_getD _ _ _ _ hM2 (by omega)]

theorem round_bye_eq (players : List String) (h2 : 2 ≤ players.length)
    (r : Nat) (hr : r < (workingList players).length - 1) :
    (generate_round_robin players).2.getD r "" =
      ((List.range ((workingList players).length / 2)).foldl
        (byeStep (rotateOnce^[r] (workingList players))
          (workingList players).length) none).getD "" := by
  rw [generate_snd_eq players h2, getD_map_range _ _ _ _ hr, innerLoop_snd]

theorem byeFold_no_bye (M : Nat) (q : List String)
    (hq : ∀ i, i < M / 2 →
      q.getD i "" ≠ "BYE" ∧ q.getD (M - 1 - i) "" ≠ "BYE") :
    (List.range (M / 2)).foldl (byeStep q M) none = none := by
  apply foldl_byeStep_id
  intro i hi b
  rw [List.mem_range] at hi
  exact byeStep_of_real q M b i (hq i hi).1 (hq i hi).2

theorem byeFold_unique_bye (M : Nat) (q : List String) (hM2 : 2 ≤ M)
    (hMe : M % 2 = 0) (j₀ : Nat) (hj₀ : j₀ < M)
    (hbye : q.getD j₀ "" = "BYE")
    (huniq : ∀ c, c < M → c ≠ j₀ → q.getD c "" ≠ "BYE") :
    (List.range (M / 2)).foldl (byeStep q M) none =
      some (q.getD (M - 1 - j₀) "") := by
  have hopp : q.getD (M - 1 - j₀) "" ≠ "BYE" := huniq _ (by omega) (by omega)
  refine foldl_byeStep_write q M (List.range (M / 2))
    (if j₀ < M / 2 then j₀ else M - 1 - j₀) (q.getD (M - 1 - j₀) "")
    ?_ ?_ ?_ none
  · rw [List.mem_range]
    split <;> omega
  · intro i hi hne b
    rw [List.mem_range] at hi
    refine byeStep_of_real q M b i (huniq i (by omega) ?_)
      (huniq (M - 1 - i) (by omega) ?_)
    · intro heq
      by_cases hc : j₀ < M / 2
      · rw [if_pos hc] at hne; omega
      · rw [if_neg hc] at hne; omega
    · intro heq
      by_cases hc : j₀ < M / 2
      · rw [if_pos hc] at hne; omega
      · rw [if_neg hc] at hne; omega
  · intro b
    simp only [byeStep]
    by_cases hc : j₀ < M / 2
    · rw [if_pos hc, hbye]
      rw [if_neg (by simp), if_neg (by simp), if_pos hopp]
    · rw [if_neg hc]
      have e : M - 1 - (M - 1 - j₀) = j₀ := by omega
      rw [e, hbye]
      rw [if_neg (by simp), if_pos hopp]

theorem round_bye_of_unique_bye (players : List String)
    (h2 : 2 ≤ players.length) (j₀ : Nat)
    (hj₀ : j₀ < (workingList players).length)
    (hbye : (workingList players).getD j₀ "" = "BYE")
    (huniq : ∀ c, c < (workingList players).length → c ≠ j₀ →
      (workingList players).getD c "" ≠ "BYE")
    (r : Nat) (hr : r < (workingList players).length - 1) :
    ∃ jq, jq < (workingList players).length ∧
      posAfter (workingList players).length r jq = j₀ ∧
      posAfter (workingList players).length r
        ((workingList players).length - 1 - jq) ≠ j₀ ∧
      (generate_round_robin players).2.getD r "" =
        (workingList players).getD (posAfter (workingList players).length r
          ((workingList players).length - 1 - jq)) "" := by
  have hM2 : 2 ≤ (workingList players).length := workingList_length_ge players h2
  have hMe : (workingList players).length % 2 = 0 := workingList_length_mod players
  obtain ⟨jq, hjqM, hjq⟩ :=
    posAfter_surj (workingList players).length r j₀ hM2 hj₀
  refine ⟨jq, hjqM, hjq, ?_, ?_⟩
  · intro heq
    have := posAfter_inj (workingList players).length r
      ((workingList players).length - 1 - jq) jq hM2 (by omega) hjqM
      (by rw [heq, hjq])
    omega
  · rw [round_bye_eq players h2 r hr]
    rw [byeFold_unique_bye (workingList players).length
      (rotateOnce^[r] (workingList players)) hM2 hMe jq hjqM ?_ ?_]
    · rw [Option.getD_some,
        iterate_rotateOnce_getD _ _ _ _ hM2 (by omega)]
    · rw [iterate_rotateOnce_getD _ _ _ _ hM2 hjqM, hjq]
      exact hbye
    · intro c hc hcne
      rw [iterate_rotateOnce_getD _ _ _ _ hM2 hc]
      apply huniq _ (posAfter_lt _ _ _ hM2 hc)
      intro heq
      exact hcne (posAfter_inj (workingList players).length r c jq hM2 hc hjqM
        (by rw [heq, hjq]))

/-! ### Counting how often a given pair of participants is paired -/

theorem innerRound_eq (players : List String) (h2 : 2 ≤ players.length)
    (r : Nat) :
    (innerLoop (workingList players).length
        (rotateOnce^[r] (workingList players))).1 =
      (List.range ((workingList players).length / 2)).filterMap (fun i =>
        if (workingList players).getD
              (posAfter (workingList players).length r i) "" ≠ "BYE" ∧
            (workingList players).getD (posAfter (workingList players).length r
              ((workingList players).length - 1 - i)) "" ≠ "BYE"
        then some
          ((workingList players).getD
            (posAfter (workingList players).length r i) "",
           (workingList players).getD (posAfter (workingList players).length r
            ((workingList players).length - 1 - i)) "")
        else none) := by
  rw [innerLoop_fst]
  apply List.filterMap_congr
  intro i hi
  rw [List.mem_range] at hi
  have hM2 : 2 ≤ (workingList players).length := workingList_length_ge players h2
  rw [iterate_rotateOnce_getD _ _ _ _ hM2 (by omega),
    iterate_rotateOnce_getD _ _ _ _ hM2 (by omega)]

theorem match_slot_iff (players : List String) (h2 : 2 ≤ players.length)
    (hwnd : (workingList players).Nodup) (a b : Nat)
    (ha : a < (workingList players).length)
    (hb : b < (workingList players).length)
    (hpa : (workingList players).getD a "" ≠ "BYE")
    (hpb : (workingList players).getD b "" ≠ "BYE")
    (r i : Nat) (hi : i < (workingList players).length / 2) :
    (((if (workingList players).getD
            (posAfter (workingList players).length r i) "" ≠ "BYE" ∧
          (workingList players).getD (posAfter (workingList players).length r
            ((workingList players).length - 1 - i)) "" ≠ "BYE"
       then some
        ((workingList players).getD
          (posAfter (workingList players).length r i) "",
         (workingList players).getD (posAfter (workingList players).length r
          ((workingList players).length - 1 - i)) "")
       else none).map
        (pairMatch ((workingList players).getD a "")
          ((workingList players).getD b ""))).getD false) = true ↔
      ((posAfter (workingList players).length r i = a ∧
        posAfter (workingList players).length r
          ((workingList players).length - 1 - i) = b) ∨
       (posAfter (workingList players).length r i = b ∧
        posAfter (workingList players).length r
          ((workingList players).length - 1 - i) = a)) := by
  have hM2 : 2 ≤ (workingList players).length := workingList_length_ge players h2
  have hA : posAfter (workingList players).length r i <
      (workingList players).length := posAfter_lt _ _ _ hM2 (by omega)
  have hB : posAfter (workingList players).length r
      ((workingList players).length - 1 - i) <
      (workingList players).length := posAfter_lt _ _ _ hM2 (by omega)
  by_cases hcond : (workingList players).getD
      (posAfter (workingList players).length r i) "" ≠ "BYE" ∧
      (workingList players).getD (posAfter (workingList players).length r
        ((workingList players).length - 1 - i)) "" ≠ "BYE"
  · rw [if_pos hcond, Option.map_some', Option.getD_some]
    unfold pairMatch
    rw [decide_eq_true_eq]
    constructor
    · rintro (heq | heq)
      · left
        exact ⟨nodup_getD_inj _ hwnd _ _ hA ha (congrArg Prod.fst heq),
          nodup_getD_inj _ hwnd _ _ hB hb (congrArg Prod.snd heq)⟩
      · right
        exact ⟨nodup_getD_inj _ hwnd _ _ hA hb (congrArg Prod.fst heq),
          nodup_getD_inj _ hwnd _ _ hB ha (congrArg Prod.snd heq)⟩
    · rintro (⟨h1, h2'⟩ | ⟨h1, h2'⟩)
      · left; rw [h1, h2']
      · right; rw [h1, h2']
  · rw [if_neg hcond, Option.map_none', Option.getD_none]
    constructor
    · intro hfalse
      simp at hfalse
    · rintro (⟨h1, h2'⟩ | ⟨h1, h2'⟩)
      · exact (hcond ⟨by rw [h1]; exact hpa, by rw [h2']; exact hpb⟩).elim
      · exact (hcond ⟨by rw [h1]; exact hpb, by rw [h2']; exact hpa⟩).elim

theorem count_round_pair (players : List String) (h2 : 2 ≤ players.length)
    (hwnd : (workingList players).Nodup) (a b : Nat)
    (ha : a < (workingList players).length)
    (hb : b < (workingList players).length) (hab : a ≠ b)
    (hpa : (workingList players).getD a "" ≠ "BYE")
    (hpb : (workingList players).getD b "" ≠ "BYE") :
    (generate_round_robin players).1.flatten.countP
      (pairMatch ((workingList players).getD a "")
        ((workingList players).getD b "")) = 1 := by
  have hM2 : 2 ≤ (workingList players).length := workingList_length_ge players h2
  have hMe : (workingList players).length % 2 = 0 := workingList_length_mod players
  obtain ⟨r₀, i₀, hr₀, hi₀, hQ⟩ :=
    pair_meets_exists (workingList players).length a b hM2 hMe ha hb hab
  rw [generate_fst_eq players h2, List.countP_flatten, List.map_map]
  apply sum_map_range_ite ((workingList players).length - 1) r₀ _ hr₀
  intro r hr
  simp only [Function.comp]
  rw [innerRound_eq players h2 r, countP_filterMap]
  by_cases hrr : r = r₀
  · subst hrr
    rw [if_pos rfl]
    apply countP_range_unique _ ((workingList players).length / 2) i₀ hi₀
    intro i hi
    constructor
    · intro hpred
      have hm := (match_slot_iff players h2 hwnd a b ha hb hpa hpb r i hi).mp
        hpred
      exact (pair_meets_unique (workingList players).length a b r i r i₀
        hM2 hMe ha hb hab hr hi hr₀ hi₀ hm hQ).2
    · intro hii
      rw [hii]
      exact (match_slot_iff players h2 hwnd a b ha hb hpa hpb r i₀ hi₀).mpr hQ
  · rw [if_neg hrr]
    rw [List.countP_eq_zero]
    intro i hmem
    rw [List.mem_range] at hmem
    intro hpred
    have hm := (match_slot_iff players h2 hwnd a b ha hb hpa hpb r i hmem).mp
      hpred
    exact hrr (pair_meets_unique (workingList players).length a b r i r₀ i₀
      hM2 hMe ha hb hab hr hmem hr₀ hi₀ hm hQ).1

/-! ### Total number of pairings -/

theorem total_len_even (players : List String) (h2 : 2 ≤ players.length)
    (hmod : players.length % 2 = 0) (hnb : "BYE" ∉ players) :
    (generate_round_robin players).1.flatten.length =
      players.length * (players.length - 1) / 2 := by
  have hwl : workingList players = players := by
    unfold workingList
    rw [if_neg (by omega)]
  have hnb2 : "BYE" ∉ workingList players := by rw [hwl]; exact hnb
  have hlenN : (workingList players).length = players.length := by rw [hwl]
  rw [generate_fst_eq players h2, List.length_flatten, List.map_map]
  have hlen : ∀ r ∈ List.range ((workingList players).length - 1),
      (List.length ∘ fun r => (innerLoop (workingList players).length
        (rotateOnce^[r] (workingList players))).1) r =
        (workingList players).length / 2 := by
    intro r hrmem
    simp only [Function.comp]
    rw [innerRound_eq players h2 r, length_filterMap_countP]
    apply countP_range_all
    intro i hi
    rw [if_pos ⟨getD_ne_of_not_mem _ _ hnb2, getD_ne_of_not_mem _ _ hnb2⟩]
    rfl
  rw [List.map_congr_left hlen, List.map_const', List.sum_replicate,
    List.length_range, smul_eq_mul, hlenN]
  obtain ⟨k, hk⟩ : ∃ k, players.length = 2 * k := ⟨players.length / 2, by omega⟩
  rw [hk]
  have e1 : 2 * k / 2 = k := by omega
  obtain ⟨t, ht2⟩ : ∃ t, 2 * k - 1 = t := ⟨2 * k - 1, rfl⟩
  rw [e1, ht2]
  have e3 : 2 * k * t = 2 * (k * t) := by ring
  rw [e3, Nat.mul_div_cancel_left _ (by omega : 0 < 2)]
  exact Nat.mul_comm t k

theorem total_len_odd (players : List String) (h2 : 2 ≤ players.length)
    (hmod : players.length % 2 = 1) (hnb : "BYE" ∉ players) :
    (generate_round_robin players).1.flatten.length =
      players.length * (players.length - 1) / 2 := by
  have hwl : workingList players = players ++ ["BYE"] := by
    unfold workingList
    rw [if_pos hmod]
  have hM2 : 2 ≤ (workingList players).length := workingList_length_ge players h2
  have hMe : (workingList players).length % 2 = 0 := workingList_length_mod players
  have hlenN : (workingList players).length = players.length + 1 :=
    workingList_length_odd players hmod
  have hbye : (workingList players).getD ((workingList players).length - 1) ""
      = "BYE" := by
    rw [hwl]
    rw [List.getD_append_right _ _ _ _ (by simp)]
    have e : (players ++ ["BYE"]).length - 1 - players.length = 0 := by
      simp
    rw [e]
    rfl
  have huniq : ∀ c, c < (workingList players).length →
      c ≠ (workingList players).length - 1 →
      (workingList players).getD c "" ≠ "BYE" := by
    intro c hc hcne
    rw [hwl, List.getD_append _ _ _ _ (by rw [hwl] at hc hcne; simp at hc hcne; omega)]
    exact getD_ne_of_not_mem _ _ hnb
  rw [generate_fst_eq players h2, List.length_flatten, List.map_map]
  have hlen : ∀ r ∈ List.range ((workingList players).length - 1),
      (List.length ∘ fun r => (innerLoop (workingList players).length
        (rotateOnce^[r] (workingList players))).1) r =
        (workingList players).length / 2 - 1 := by
    intro r hrmem
    rw [List.mem_range] at hrmem
    simp only [Function.comp]
    rw [innerRound_eq players h2 r, length_filterMap_countP]
    obtain ⟨jr, hjrM, hjr⟩ := posAfter_surj (workingList players).length r
      ((workingList players).length - 1) hM2 (by omega)
    apply countP_range_unique_false _ ((workingList players).length / 2)
      (if jr < (workingList players).length / 2 then jr
        else (workingList players).length - 1 - jr)
    · split <;> omega
    · intro i hi
      have hposiff : ∀ j, j < (workingList players).length →
          ((workingList players).getD
            (posAfter (workingList players).length r j) "" = "BYE" ↔
            j = jr) := by
        intro j hj
        constructor
        · intro hB
          by_contra hne
          refine huniq (posAfter (workingList players).length r j)
            (posAfter_lt _ _ _ hM2 hj) ?_ hB
          intro heq
          exact hne (posAfter_inj (workingList players).length r j jr hM2 hj
            hjrM (by rw [heq, hjr]))
        · intro hjj
          rw [hjj, hjr]
          exact hbye
      constructor
      · intro hfalse
        have hcond : ¬((workingList players).getD
              (posAfter (workingList players).length r i) "" ≠ "BYE" ∧
            (workingList players).getD (posAfter (workingList players).length r
              ((workingList players).length - 1 - i)) "" ≠ "BYE") := by
          intro hcond
          rw [if_pos hcond] at hfalse
          simp at hfalse
        have hor : (workingList players).getD
              (posAfter (workingList players).length r i) "" = "BYE" ∨
            (workingList players).getD (posAfter (workingList players).length r
              ((workingList players).length - 1 - i)) "" = "BYE" := by
          by_contra hno
          push_neg at hno
          exact hcond ⟨hno.1, hno.2⟩
        rcases hor with hB | hB
        · have := (hposiff i (by omega)).mp hB
          split
          · omega
          · -- jr ≥ M/2 but i = jr < M/2: contradiction
            omega
        · have := (hposiff ((workingList players).length - 1 - i)
            (by omega)).mp hB
          split <;> omega
      · intro hii
        have hB : (workingList players).getD
              (posAfter (workingList players).length r i) "" = "BYE" ∨
            (workingList players).getD (posAfter (workingList players).length r
              ((workingList players).length - 1 - i)) "" = "BYE" := by
          by_cases hc : jr < (workingList players).length / 2
          · rw [if_pos hc] at hii
            left
            exact (hposiff i (by omega)).mpr (by omega)
          · rw [if_neg hc] at hii
            right
            refine (hposiff ((workingList players).length - 1 - i)
              (by omega)).mpr (by omega)
        rcases hB with hB | hB
        · rw [if_neg (by intro hcond; exact hcond.1 hB)]
          rfl
        · rw [if_neg (by intro hcond; exact hcond.2 hB)]
          rfl
  rw [List.map_congr_left hlen, List.map_const', List.sum_replicate,
    List.length_range, smul_eq_mul, hlenN]
  have e0 : players.length + 1 - 1 = players.length := by omega
  rw [e0]
  obtain ⟨k, hk⟩ : ∃ k, players.length = 2 * k + 1 := ⟨players.length / 2, by omega⟩
  rw [hk]
  have e1 : (2 * k + 1 + 1) / 2 - 1 = k := by omega
  have e2 : 2 * k + 1 - 1 = 2 * k := by omega
  rw [e1, e2]
  have e3 : (2 * k + 1) * (2 * k) = 2 * ((2 * k + 1) * k) := by ring
  rw [e3, Nat.mul_div_cancel_left _ (by omega : 0 < 2)]

/-! ### How often a single participant occurs inside one round -/

theorem sum_map_filterMap {α β : Type} (f : α → Option β) (w : β → Nat)
    (l : List α) :
    ((l.filterMap f).map w).sum =
      (l.map (fun a => ((f a).map w).getD 0)).sum := by
  induction l with
  | nil => rfl
  | cons a t ih =>
    rw [List.filterMap_cons]
    cases hfa : f a with
    | none => simp [hfa, ih]
    | some b => simp [hfa, ih]

theorem sum_map_range_single (n i₀ v : Nat) (f : Nat → Nat) (hi : i₀ < n)
    (hf : ∀ r, r < n → f r = if r = i₀ then v else 0) :
    ((List.range n).map f).sum = v := by
  induction n with
  | zero => omega
  | succ n ih =>
    rw [List.range_succ, List.map_append, List.sum_append]
    simp only [List.map_cons, List.map_nil, List.sum_cons, List.sum_nil]
    by_cases h : i₀ = n
    · subst h
      have hzero : ((List.range i₀).map f).sum = 0 := by
        apply List.sum_eq_zero
        intro x hx
        rw [List.mem_map] at hx
        obtain ⟨r, hrmem, rfl⟩ := hx
        rw [List.mem_range] at hrmem
        rw [hf r (by omega), if_neg (by omega)]
      rw [hzero, hf i₀ (by omega), if_pos rfl]
      omega
    · rw [ih (by omega) (fun r hr2 => hf r (by omega)), hf n (by omega),
        if_neg (by omega)]
      omega

theorem occ_round_le (players : List String) (h2 : 2 ≤ players.length)
    (p : String) (_hpB : p ≠ "BYE") (a : Nat)
    (haM : a < (workingList players).length)
    (hpa : (workingList players).getD a "" = p)
    (huniq : ∀ c, c < (workingList players).length → c ≠ a →
      (workingList players).getD c "" ≠ p)
    (r : Nat) (hr : r < (workingList players).length - 1) :
    occCount p ((generate_round_robin players).1.getD r []) +
      (if (generate_round_robin players).2.getD r "" = p ∧ p ≠ ""
        then 1 else 0) ≤ 1 := by
  have hM2 : 2 ≤ (workingList players).length := workingList_length_ge players h2
  have hMe : (workingList players).length % 2 = 0 := workingList_length_mod players
  obtain ⟨ja, hjaM, hja⟩ :=
    posAfter_surj (workingList players).length r a hM2 haM
  have hval : ∀ c, c < (workingList players).length →
      ((workingList players).getD c "" = p ↔ c = a) := by
    intro c hc
    constructor
    · intro hcp
      by_contra hne
      exact huniq c hc hne hcp
    · intro hca
      rw [hca]
      exact hpa
  have hcondDec : ∀ i : Nat, Decidable
      ((workingList players).getD
          (posAfter (workingList players).length r i) "" ≠ "BYE" ∧
        (workingList players).getD (posAfter (workingList players).length r
          ((workingList players).length - 1 - i)) "" ≠ "BYE") := by
    intro i
    infer_instance
  have hstar_lt : (if ja < (workingList players).length / 2 then ja
      else (workingList players).length - 1 - ja) <
      (workingList players).length / 2 := by
    split <;> omega
  have hocc : occCount p ((generate_round_robin players).1.getD r []) =
      if ((workingList players).getD (posAfter (workingList players).length r
          (if ja < (workingList players).length / 2 then ja
            else (workingList players).length - 1 - ja)) "" ≠ "BYE" ∧
        (workingList players).getD (posAfter (workingList players).length r
          ((workingList players).length - 1 -
            (if ja < (workingList players).length / 2 then ja
              else (workingList players).length - 1 - ja))) "" ≠ "BYE")
      then 1 else 0 := by
    unfold occCount
    rw [round_pairs_eq players h2 r hr, sum_map_filterMap]
    apply sum_map_range_single ((workingList players).length / 2)
      (if ja < (workingList players).length / 2 then ja
        else (workingList players).length - 1 - ja) _ _ hstar_lt
    intro i hi
    have hAlt : posAfter (workingList players).length r i <
        (workingList players).length := posAfter_lt _ _ _ hM2 (by omega)
    have hBlt : posAfter (workingList players).length r
        ((workingList players).length - 1 - i) <
        (workingList players).length := posAfter_lt _ _ _ hM2 (by omega)
    have hAiff : posAfter (workingList players).length r i = a ↔ i = ja := by
      constructor
      · intro hA
        exact posAfter_inj (workingList players).length r i ja hM2 (by omega)
          hjaM (by rw [hA, hja])
      · intro hij
        rw [hij, hja]
    have hBiff : posAfter (workingList players).length r
        ((workingList players).length - 1 - i) = a ↔
        i = (workingList players).length - 1 - ja := by
      constructor
      · intro hB
        have := posAfter_inj (workingList players).length r
          ((workingList players).length - 1 - i) ja hM2 (by omega) hjaM
          (by rw [hB, hja])
        omega
      · intro hij
        have e : (workingList players).length - 1 - i = ja := by omega
        rw [e, hja]
    by_cases hcond : (workingList players).getD
        (posAfter (workingList players).length r i) "" ≠ "BYE" ∧
        (workingList players).getD (posAfter (workingList players).length r
          ((workingList players).length - 1 - i)) "" ≠ "BYE"
    · rw [if_pos hcond, Option.map_some', Option.getD_some]
      by_cases hii : i = (if ja < (workingList players).length / 2 then ja
          else (workingList players).length - 1 - ja)
      · rw [if_pos hii]
        have hcond2 := hcond
        rw [hii] at hcond2
        rw [if_pos hcond2]
        by_cases hc : ja < (workingList players).length / 2
        · rw [if_pos hc] at hii
          have hA1 : (workingList players).getD
              (posAfter (workingList players).length r i) "" = p :=
            (hval _ hAlt).mpr (hAiff.mpr hii)
          have hB0 : ¬ (workingList players).getD
              (posAfter (workingList players).length r
                ((workingList players).length - 1 - i)) "" = p := by
            intro hB
            have := hBiff.mp ((hval _ hBlt).mp hB)
            omega
          rw [if_pos hA1, if_neg hB0]
        · rw [if_neg hc] at hii
          have hB1 : (workingList players).getD
              (posAfter (workingList players).length r
                ((workingList players).length - 1 - i)) "" = p :=
            (hval _ hBlt).mpr (hBiff.mpr hii)
          have hA0 : ¬ (workingList players).getD
              (posAfter (workingList players).length r i) "" = p := by
            intro hA
            have := hAiff.mp ((hval _ hAlt).mp hA)
            omega
          rw [if_neg hA0, if_pos hB1]
      · rw [if_neg hii]
        have hA0 : ¬ (workingList players).getD
            (posAfter (workingList players).length r i) "" = p := by
          intro hA
          have hij := hAiff.mp ((hval _ hAlt).mp hA)
          by_cases hc : ja < (workingList players).length / 2
          · rw [if_pos hc] at hii; omega
          · omega
        have hB0 : ¬ (workingList players).getD
            (posAfter (workingList players).length r
              ((workingList players).length - 1 - i)) "" = p := by
          intro hB
          have hij := hBiff.mp ((hval _ hBlt).mp hB)
          by_cases hc : ja < (workingList players).length / 2
          · omega
          · rw [if_neg hc] at hii; omega
        rw [if_neg hA0, if_neg hB0]
    · rw [if_neg hcond, Option.map_none', Option.getD_none]
      by_cases hii : i = (if ja < (workingList players).length / 2 then ja
          else (workingList players).length - 1 - ja)
      · rw [if_pos hii]
        have hcond2 := hcond
        rw [hii] at hcond2
        rw [if_neg hcond2]
      · rw [if_neg hii]
  rw [hocc]
  by_cases hcS : (workingList players).getD
      (posAfter (workingList players).length r
        (if ja < (workingList players).length / 2 then ja
          else (workingList players).length - 1 - ja)) "" ≠ "BYE" ∧
      (workingList players).getD (posAfter (workingList players).length r
        ((workingList players).length - 1 -
          (if ja < (workingList players).length / 2 then ja
            else (workingList players).length - 1 - ja))) "" ≠ "BYE"
  · rw [if_pos hcS]
    have hbye0 : ¬ ((generate_round_robin players).2.getD r "" = p ∧
        p ≠ "") := by
      rintro ⟨hbp, hpne⟩
      have hfold : (List.range ((workingList players).length / 2)).foldl
          (byeStep (rotateOnce^[r] (workingList players))
            (workingList players).length) none = some p := by
        rw [round_bye_eq players h2 r hr] at hbp
        cases hfold : (List.range ((workingList players).length / 2)).foldl
            (byeStep (rotateOnce^[r] (workingList players))
              (workingList players).length) none with
        | none =>
          rw [hfold, Option.getD_none] at hbp
          exact absurd hbp.symm hpne
        | some v =>
          rw [hfold, Option.getD_some] at hbp
          rw [hbp]
      rcases foldl_byeStep_some (rotateOnce^[r] (workingList players))
          (workingList players).length _ p none hfold with hnone | hex
      · simp at hnone
      · obtain ⟨i, hiMem, hCondFail, hvals⟩ := hex
        rw [List.mem_range] at hiMem
        rw [iterate_rotateOnce_getD _ _ _ _ hM2 (by omega),
          iterate_rotateOnce_getD _ _ _ _ hM2 (by omega)]
          at hCondFail hvals
        rcases hvals with ⟨hAne, hpA⟩ | ⟨hAbye, hBne, hpBv⟩
        · have hAa : posAfter (workingList players).length r i = a :=
            (hval _ (posAfter_lt _ _ _ hM2 (by omega))).mp hpA.symm
          have hija : i = ja := posAfter_inj (workingList players).length r
            i ja hM2 (by omega) hjaM (by rw [hAa, hja])
          by_cases hc : ja < (workingList players).length / 2
          · apply hCondFail
            have he : (if ja < (workingList players).length / 2 then ja
                else (workingList players).length - 1 - ja) = i := by
              rw [if_pos hc, hija]
            rw [he] at hcS
            exact hcS
          · omega
        · have hBa : posAfter (workingList players).length r
              ((workingList players).length - 1 - i) = a :=
            (hval _ (posAfter_lt _ _ _ hM2 (by omega))).mp hpBv.symm
          have hija : (workingList players).length - 1 - i = ja :=
            posAfter_inj (workingList players).length r
              ((workingList players).length - 1 - i) ja hM2 (by omega) hjaM
              (by rw [hBa, hja])
          by_cases hc : ja < (workingList players).length / 2
          · omega
          · apply hCondFail
            have he : (if ja < (workingList players).length / 2 then ja
                else (workingList players).length - 1 - ja) = i := by
              rw [if_neg hc]
              omega
            rw [he] at hcS
            exact hcS
    rw [if_neg hbye0]
  · rw [if_neg hcS]
    split <;> omega

/-! ### The checked embedding never fails -/

theorem get?_eq_some_getD (l : List String) (i : Nat) (h : i < l.length) :
    l.get? i = some (l.getD i "") := by
  rw [List.getD_eq_getElem _ _ h, List.get?_eq_getElem?]
  exact List.getElem?_eq_getElem h

theorem innerStep_checked_eq (pl : List String) (M i : Nat)
    (hi : i < pl.length) (hip : M - 1 - i < pl.length)
    (ac : List (String × String) × Option String) :
    innerStep_checked pl M (some ac) i = some (innerStep pl M ac i) := by
  obtain ⟨ps, b⟩ := ac
  simp only [innerStep_checked, innerStep, get?_eq_some_getD _ _ hi,
    get?_eq_some_getD _ _ hip]
  split_ifs <;> rfl

theorem inner_checked_foldl (pl : List String) (M : Nat) (l : List Nat)
    (hb : ∀ i ∈ l, i < pl.length ∧ M - 1 - i < pl.length) :
    ∀ ac, l.foldl (innerStep_checked pl M) (some ac) =
      some (l.foldl (innerStep pl M) ac) := by
  induction l with
  | nil => intro ac; rfl
  | cons a t ih =>
    intro ac
    rw [List.foldl_cons, List.foldl_cons,
      innerStep_checked_eq pl M a (hb a (by simp)).1 (hb a (by simp)).2]
    exact ih (fun i hi => hb i (by simp [hi])) _

theorem outerStep_checked_eq (M : Nat)
    (st : (List (List (String × String)) × List String) × List String)
    (hlen : st.2.length = M) (hM : 2 ≤ M) (k : Nat) :
    outerStep_checked M (some st) k = some (outerStep M st k) := by
  obtain ⟨acc, pl⟩ := st
  have hlen2 : pl.length = M := hlen
  have hinner := inner_checked_foldl pl M (List.range (M / 2)) (fun i hi => by
    rw [List.mem_range] at hi
    exact ⟨by omega, by omega⟩) ([], none)
  simp only [outerStep_checked, outerStep, hinner,
    get?_eq_some_getD pl 0 (by omega), get?_eq_some_getD pl 1 (by omega)]
  rfl

theorem outer_checked_foldl (M : Nat) (hM : 2 ≤ M) (l : List Nat) :
    ∀ st : (List (List (String × String)) × List String) × List String,
      st.2.length = M →
      l.foldl (outerStep_checked M) (some st) =
        some (l.foldl (outerStep M) st) := by
  induction l with
  | nil => intro st _; rfl
  | cons a t ih =>
    intro st hlen
    rw [List.foldl_cons, List.foldl_cons, outerStep_checked_eq M st hlen hM a]
    apply ih
    show (rotateOnce st.2).length = M
    rw [rotateOnce_length _ (by omega)]
    exact hlen

theorem generate_checked_eq (players : List String) :
    generate_round_robin_checked players = some (generate_round_robin players) := by
  by_cases h : players.length < 2
  · rw [generate_small players h]
    unfold generate_round_robin_checked
    rw [if_pos h]
  · have hM : 2 ≤ (workingList players).length :=
      workingList_length_ge players (by omega)
    unfold generate_round_robin_checked generate_round_robin
    simp only []
    rw [if_neg h, if_neg h]
    rw [outer_checked_foldl (workingList players).length hM _
      (([], []), workingList players) rfl]
    rfl

/-! ### The state-threaded embedding leaves the argument unchanged -/

theorem outerStep_st_foldl (M : Nat) (l : List Nat) :
    ∀ st : ((List (List (String × String)) × List String) × List String) ×
      List String,
      l.foldl (outerStep_st M) st = (l.foldl (outerStep M) st.1, st.2) := by
  induction l with
  | nil => intro st; rfl
  | cons a t ih =>
    intro st
    rw [List.foldl_cons, List.foldl_cons, ih]
    rfl

theorem generate_st_eq (players : List String) :
    generate_round_robin_st players = (generate_round_robin players, players) := by
  unfold generate_round_robin_st generate_round_robin
  by_cases h : players.length < 2
  · simp only []
    rw [if_pos h, if_pos h]
  · simp only []
    rw [if_neg h, if_neg h]
    rw [outerStep_st_foldl]

/-! ### The spec-side circle method agrees with the code -/

theorem rotate_spec_eq : rotate_spec = rotateOnce := by
  funext l
  rfl

theorem byeStep_spec_eq (pl : List String) (M : Nat) :
    (fun (bb : Option String) (i : Nat) =>
      let x := pl.getD i ""
      let y := pl.getD (M - 1 - i) ""
      if x = "BYE" ∧ y ≠ "BYE" then some y
      else if x ≠ "BYE" ∧ y = "BYE" then some x
      else bb) = byeStep pl M := by
  funext bb i
  simp only [byeStep]
  split_ifs <;> first | rfl | tauto

theorem circle_spec_eq (players : List String) :
    generate_round_robin players = circle_method_spec players := by
  by_cases h : players.length < 2
  · rw [generate_small players h]
    unfold circle_method_spec
    rw [if_pos h]
  · have h2 : 2 ≤ players.length := by omega
    rw [generate_round_robin_eq players h2]
    unfold circle_method_spec
    rw [if_neg h]
    simp only [rotate_spec_eq]
    have hw : (if players.length % 2 = 1 then players ++ ["BYE"] else players)
        = workingList players := rfl
    rw [hw]
    congr 1
    · apply List.map_congr_left
      intro r hrmem
      exact innerLoop_fst (workingList players).length
        (rotateOnce^[r] (workingList players))
    · apply List.map_congr_left
      intro r hrmem
      rw [innerLoop_snd, byeStep_spec_eq]

/-! ### Miscellaneous facts about the bye entries and participant positions -/

theorem bye_entry_ne_bye (players : List String) (h2 : 2 ≤ players.length)
    (r : Nat) (hr : r < (workingList players).length - 1) :
    (generate_round_robin players).2.getD r "" ≠ "BYE" := by
  rw [round_bye_eq players h2 r hr]
  cases hfold : (List.range ((workingList players).length / 2)).foldl
      (byeStep (rotateOnce^[r] (workingList players))
        (workingList players).length) none with
  | none => decide
  | some v =>
    rw [Option.getD_some]
    rcases foldl_byeStep_some (rotateOnce^[r] (workingList players))
        (workingList players).length _ v none hfold with hh | hex
    · simp at hh
    · obtain ⟨i, _, _, hv⟩ := hex
      rcases hv with ⟨hne, hveq⟩ | ⟨_, hne, hveq⟩ <;> rw [hveq] <;> exact hne

theorem wl_pos_unique (players : List String) (hnd : players.Nodup)
    (p : String) (hpB : p ≠ "BYE") (hp : p ∈ players) :
    ∃ a, a < (workingList players).length ∧
      (workingList players).getD a "" = p ∧
      ∀ c, c < (workingList players).length → c ≠ a →
        (workingList players).getD c "" ≠ p := by
  obtain ⟨a, haN, hpa⟩ := mem_getD players p hp
  by_cases hmod : players.length % 2 = 1
  · have hwl : workingList players = players ++ ["BYE"] := by
      unfold workingList
      rw [if_pos hmod]
    have hlen : (workingList players).length = players.length + 1 :=
      workingList_length_odd players hmod
    refine ⟨a, by omega, ?_, ?_⟩
    · rw [hwl, List.getD_append _ _ _ _ haN]
      exact hpa
    · intro c hc hcne
      by_cases hcN : c < players.length
      · rw [hwl, List.getD_append _ _ _ _ hcN]
        intro hcp
        exact hcne (nodup_getD_inj players hnd c a hcN haN (by rw [hcp, hpa]))
      · rw [hwl, List.getD_append_right _ _ _ _ (by omega)]
        have hB : (["BYE"] : List String).getD (c - players.length) "" = "BYE"
            := by
          have hc0 : c - players.length = 0 := by
            rw [hwl] at hc
            simp at hc
            omega
          rw [hc0]
          rfl
        rw [hB]
        exact fun hh => hpB hh.symm
  · have hwl : workingList players = players := by
      unfold workingList
      rw [if_neg hmod]
    refine ⟨a, by rw [hwl]; omega, by rw [hwl]; exact hpa, ?_⟩
    intro c hc hcne
    rw [hwl] at hc ⊢
    intro hcp
    exact hcne (nodup_getD_inj players hnd c a hc haN (by rw [hcp, hpa]))

theorem wl_odd_unique_bye (players : List String)
    (hmod : players.length % 2 = 1) (hnb : "BYE" ∉ players) :
    (workingList players).getD ((workingList players).length - 1) "" = "BYE" ∧
    ∀ c, c < (workingList players).length →
      c ≠ (workingList players).length - 1 →
      (workingList players).getD c "" ≠ "BYE" := by
  have hwl : workingList players = players ++ ["BYE"] := by
    unfold workingList
    rw [if_pos hmod]
  have hlen : (workingList players).length = players.length + 1 :=
    workingList_length_odd players hmod
  constructor
  · rw [hwl]
    rw [List.getD_append_right _ _ _ _ (by simp)]
    have e : (players ++ ["BYE"]).length - 1 - players.length = 0 := by simp
    rw [e]
    rfl
  · intro c hc hcne
    rw [hwl, List.getD_append _ _ _ _ (by omega)]
    exact getD_ne_of_not_mem _ _ hnb

theorem two_getD_le_count (l : List String) (x : String) :
    ∀ i j : Nat, i < l.length → j < l.length → i ≠ j →
      l.getD i "" = x → l.getD j "" = x → 2 ≤ l.count x := by
  induction l with
  | nil => intro i j hi _ _ _ _; simp at hi
  | cons hd t ih =>
    intro i j hi hj hij hxi hxj
    have hcnt : (hd :: t).count x = t.count x + if hd = x then 1 else 0 := by
      simp [List.count_cons]
    by_cases hi0 : i = 0
    · have hj0 : j ≠ 0 := by omega
      obtain ⟨j', rfl⟩ : ∃ j', j = j' + 1 := ⟨j - 1, by omega⟩
      have hhd : hd = x := by
        rw [hi0] at hxi
        exact hxi
      have hmemt : x ∈ t := by
        have : t.getD j' "" = x := hxj
        rw [← this]
        exact getD_mem t j' (by simp at hj; omega)
      have : 0 < t.count x := List.count_pos_iff.mpr hmemt
      rw [hcnt, if_pos hhd]
      omega
    · by_cases hj0 : j = 0
      · obtain ⟨i', rfl⟩ : ∃ i', i = i' + 1 := ⟨i - 1, by omega⟩
        have hhd : hd = x := by
          rw [hj0] at hxj
          exact hxj
        have hmemt : x ∈ t := by
          have : t.getD i' "" = x := hxi
          rw [← this]
          exact getD_mem t i' (by simp at hi; omega)
        have : 0 < t.count x := List.count_pos_iff.mpr hmemt
        rw [hcnt, if_pos hhd]
        omega
      · obtain ⟨i', rfl⟩ : ∃ i', i = i' + 1 := ⟨i - 1, by omega⟩
        obtain ⟨j', rfl⟩ : ∃ j', j = j' + 1 := ⟨j - 1, by omega⟩
        have := ih i' j' (by simp at hi; omega) (by simp at hj; omega)
          (by omega) hxi hxj
        rw [hcnt]
        omega

theorem emitted_pair_ne_bye (players : List String) (h2 : 2 ≤ players.length)
    (r : Nat) (pr : String × String)
    (hpr : pr ∈ (generate_round_robin players).1.getD r []) :
    pr.1 ≠ "BYE" ∧ pr.2 ≠ "BYE" := by
  by_cases hr : r < (workingList players).length - 1
  · rw [round_pairs_eq players h2 r hr] at hpr
    rw [List.mem_filterMap] at hpr
    obtain ⟨i, hi, hpr2⟩ := hpr
    by_cases hcond : (workingList players).getD
        (posAfter (workingList players).length r i) "" ≠ "BYE" ∧
        (workingList players).getD (posAfter (workingList players).length r
          ((workingList players).length - 1 - i)) "" ≠ "BYE"
    · rw [if_pos hcond] at hpr2
      have heq := Option.some.inj hpr2
      constructor
      · rw [← heq]
        exact hcond.1
      · rw [← heq]
        exact hcond.2
    · rw [if_neg hcond] at hpr2
      simp at hpr2
  · rw [List.getD_eq_default _ _
      (by rw [rounds_length players h2]; omega)] at hpr
    simp at hpr

/-! ### The claims -/

/-- Claim C1, as stated, fails on the code: `["A", "BYE"]` is a list of two
unique participant strings, yet the literal string `"BYE"` is treated as
the synthetic placeholder (src/bot.py line 73), so the schedule contains
`0` pairings instead of the required `2 * (2 - 1) / 2 = 1`, and the pair
`{"A", "BYE"}` never appears. -/
theorem c1_counterexample :
    List.Nodup ["A", "BYE"] ∧
    2 ≤ (["A", "BYE"] : List String).length ∧
    (generate_round_robin ["A", "BYE"]).1.flatten.length ≠ 2 * (2 - 1) / 2 := by
  refine ⟨by decide, by decide, by decide⟩

/-- Claim C1 (amended: the participants must not include the reserved
placeholder string `"BYE"`): for every list of `N ≥ 2` unique participant
strings none of which is `"BYE"`, every unordered pair of distinct
participants appears in exactly one pairing across all rounds of
`generate_round_robin`, and the total number of pairings over the whole
schedule is `N * (N - 1) / 2`. -/
theorem c1_pairs_exactly_once :
    ∀ players : List String, players.Nodup → 2 ≤ players.length →
      "BYE" ∉ players →
      (∀ p ∈ players, ∀ q ∈ players, p ≠ q →
        (generate_round_robin players).1.flatten.countP (pairMatch p q) = 1) ∧
      (generate_round_robin players).1.flatten.length =
        players.length * (players.length - 1) / 2 := by
  intro players hnd h2 hnb
  have hwnd : (workingList players).Nodup := by
    unfold workingList
    split
    · rw [List.nodup_append]
      refine ⟨hnd, List.nodup_singleton _, ?_⟩
      intro x hx hx2
      rw [List.mem_singleton] at hx2
      subst hx2
      exact hnb hx
    · exact hnd
  have hmemw : ∀ x ∈ players, x ∈ workingList players := by
    intro x hx
    unfold workingList
    split
    · exact List.mem_append_left _ hx
    · exact hx
  constructor
  · intro p hp q hq hpq
    obtain ⟨a, haM, hpa⟩ := mem_getD _ p (hmemw p hp)
    obtain ⟨b, hbM, hqb⟩ := mem_getD _ q (hmemw q hq)
    have hab : a ≠ b := by
      intro heq
      apply hpq
      rw [← hpa, ← hqb, heq]
    have hpB : p ≠ "BYE" := fun hh => hnb (hh ▸ hp)
    have hqB : q ≠ "BYE" := fun hh => hnb (hh ▸ hq)
    have hc := count_round_pair players h2 hwnd a b haM hbM hab
      (by rw [hpa]; exact hpB) (by rw [hqb]; exact hqB)
    rw [hpa, hqb] at hc
    exact hc
  · by_cases hmod : players.length % 2 = 0
    · exact total_len_even players h2 hmod hnb
    · exact total_len_odd players h2 (by omega) hnb

/-- Witness for C1 at the concrete input `["Alice", "Bob", "Charlie"]`. -/
theorem c1_pairs_exactly_once_witness :
    (∀ p ∈ (["Alice", "Bob", "Charlie"] : List String),
      ∀ q ∈ (["Alice", "Bob", "Charlie"] : List String), p ≠ q →
      (generate_round_robin ["Alice", "Bob", "Charlie"]).1.flatten.countP
        (pairMatch p q) = 1) ∧
    (generate_round_robin ["Alice", "Bob", "Charlie"]).1.flatten.length =
      3 * (3 - 1) / 2 :=
  c1_pairs_exactly_once ["Alice", "Bob", "Charlie"] (by decide) (by decide)
    (by decide)

/-- Claim C2: for every list of `N ≥ 2` unique participant strings, each
participant occurs at most once per round: its occurrences among the
round's pairings plus its designation as the round's bye player total at
most one.  Per the source docstring (line 46, "empty string if none") the
entry `""` in `byes_per_round` denotes the absence of a bye, so a
participant is the round's bye player exactly when the recorded entry is
that participant and is nonempty. -/
theorem c2_at_most_once_per_round :
    ∀ players : List String, players.Nodup → 2 ≤ players.length →
      ∀ p ∈ players, ∀ r : Nat,
        occCount p ((generate_round_robin players).1.getD r []) +
          (if (generate_round_robin players).2.getD r "" = p ∧ p ≠ ""
            then 1 else 0) ≤ 1 := by
  intro players hnd h2 p hp r
  by_cases hr : r < (workingList players).length - 1
  · by_cases hpB : p = "BYE"
    · subst hpB
      have hocc : occCount "BYE"
          ((generate_round_robin players).1.getD r []) = 0 := by
        unfold occCount
        apply List.sum_eq_zero
        intro x hx
        rw [List.mem_map] at hx
        obtain ⟨pr, hpr, rfl⟩ := hx
        have h := emitted_pair_ne_bye players h2 r pr hpr
        show (if pr.1 = "BYE" then 1 else 0) +
          (if pr.2 = "BYE" then 1 else 0) = 0
        rw [if_neg h.1, if_neg h.2]
        rfl
      rw [hocc]
      have hno : ¬((generate_round_robin players).2.getD r "" = "BYE" ∧
          ("BYE" : String) ≠ "") := by
        rintro ⟨hb, _⟩
        exact bye_entry_ne_bye players h2 r hr hb
      rw [if_neg hno]
      omega
    · obtain ⟨a, haM, hpa, huniq⟩ := wl_pos_unique players hnd p hpB hp
      exact occ_round_le players h2 p hpB a haM hpa huniq r hr
  · rw [List.getD_eq_default _ _ (by rw [rounds_length players h2]; omega),
      List.getD_eq_default _ _ (by rw [byes_length players h2]; omega)]
    have h0 : occCount p [] = 0 := rfl
    rw [h0]
    split <;> omega

/-- Witness for C2 at the concrete input `["Alice", "Bob"]`, participant
`"Alice"`, round `0`. -/
theorem c2_at_most_once_per_round_witness :
    occCount "Alice" ((generate_round_robin ["Alice", "Bob"]).1.getD 0 []) +
      (if (generate_round_robin ["Alice", "Bob"]).2.getD 0 "" = "Alice" ∧
          ("Alice" : String) ≠ "" then 1 else 0) ≤ 1 :=
  c2_at_most_once_per_round ["Alice", "Bob"] (by decide) (by decide) "Alice"
    (by decide) 0

/-- Claim C3, as stated, fails on the code in two ways.  `["A", "BYE"]` has
even length `2`, yet its single round records `"A"` as a bye.  And
`["", "A", "B"]` has odd length `3`, yet its first round records the empty
entry — i.e. no bye player — because the would-be bye participant is the
empty string, which the output encoding cannot distinguish from "no
bye". -/
theorem c3_counterexample :
    (List.Nodup ["A", "BYE"] ∧
      (generate_round_robin ["A", "BYE"]).2.getD 0 "" ≠ "") ∧
    (List.Nodup ["", "A", "B"] ∧
      (["", "A", "B"] : List String).length % 2 = 1 ∧
      0 < (generate_round_robin ["", "A", "B"]).2.length ∧
      (generate_round_robin ["", "A", "B"]).2.getD 0 "?" = "") := by
  exact ⟨⟨by decide, by decide⟩, by decide, by decide, by decide, by decide⟩

/-- Claim C3 (amended: the participants must include neither the reserved
placeholder string `"BYE"` nor the empty string, which the bye encoding
reserves for "no bye"): for every list of `N ≥ 2` unique participant
strings, if `N` is even no round records a bye; if `N` is odd every round
records exactly one bye player (a nonempty entry naming a participant) and
every participant is the recorded bye player of at least one round. -/
theorem c3_bye_parity :
    ∀ players : List String, players.Nodup → 2 ≤ players.length →
      "BYE" ∉ players → "" ∉ players →
      (players.length % 2 = 0 →
        ∀ r < (generate_round_robin players).2.length,
          (generate_round_robin players).2.getD r "" = "") ∧
      (players.length % 2 = 1 →
        (∀ r < (generate_round_robin players).2.length,
          (generate_round_robin players).2.getD r "" ∈ players ∧
          (generate_round_robin players).2.getD r "" ≠ "") ∧
        (∀ p ∈ players, ∃ r < (generate_round_robin players).2.length,
          (generate_round_robin players).2.getD r "" = p)) := by
  intro players hnd h2 hnb hne
  have hM2 : 2 ≤ (workingList players).length := workingList_length_ge players h2
  have hMe : (workingList players).length % 2 = 0 := workingList_length_mod players
  have hblen := byes_length players h2
  constructor
  · intro hmod r hrlen
    have hr : r < (workingList players).length - 1 := by omega
    have hwl : workingList players = players := by
      unfold workingList
      rw [if_neg (by omega)]
    have hnbw : "BYE" ∉ workingList players := by rw [hwl]; exact hnb
    rw [round_bye_eq players h2 r hr, byeFold_no_bye]
    · rfl
    · intro i hi
      constructor
      · rw [iterate_rotateOnce_getD _ _ _ _ hM2 (by omega)]
        exact getD_ne_of_not_mem _ _ hnbw
      · rw [iterate_rotateOnce_getD _ _ _ _ hM2 (by omega)]
        exact getD_ne_of_not_mem _ _ hnbw
  · intro hmod
    obtain ⟨hbyepos, huniq⟩ := wl_odd_unique_bye players hmod hnb
    have hlenw : (workingList players).length = players.length + 1 :=
      workingList_length_odd players hmod
    have hwl : workingList players = players ++ ["BYE"] := by
      unfold workingList
      rw [if_pos hmod]
    constructor
    · intro r hrlen
      have hr : r < (workingList players).length - 1 := by omega
      obtain ⟨jq, hjqM, hjq, hne2, hbv⟩ := round_bye_of_unique_bye players h2
        ((workingList players).length - 1) (by omega) hbyepos huniq r hr
      set e := posAfter (workingList players).length r
        ((workingList players).length - 1 - jq) with he_def
      have heM : e < (workingList players).length :=
        posAfter_lt _ _ _ hM2 (by omega)
      have heN : e < players.length := by omega
      rw [hbv, hwl]
      constructor
      · rw [List.getD_append _ _ _ _ heN]
        exact getD_mem players _ heN
      · rw [List.getD_append _ _ _ _ heN]
        intro hh
        have hm := getD_mem players e heN
        rw [hh] at hm
        exact hne hm
    · intro p hp
      obtain ⟨a, haN, hpa⟩ := mem_getD players p hp
      have haM : a < (workingList players).length := by omega
      obtain ⟨r, i, hr, hi, hQ⟩ := pair_meets_exists
        (workingList players).length a ((workingList players).length - 1)
        hM2 hMe haM (by omega) (by omega)
      refine ⟨r, by omega, ?_⟩
      obtain ⟨jq, hjqM, hjq, hne2, hbv⟩ := round_bye_of_unique_bye players h2
        ((workingList players).length - 1) (by omega) hbyepos huniq r hr
      rw [hbv]
      have hwla : (workingList players).getD a "" = p := by
        rw [hwl, List.getD_append _ _ _ _ haN]
        exact hpa
      rcases hQ with ⟨hQa, hQb⟩ | ⟨hQb, hQa⟩
      · have hjq2 : (workingList players).length - 1 - i = jq :=
          posAfter_inj _ r _ jq hM2 (by omega) hjqM (by rw [hQb, hjq])
        have he : (workingList players).length - 1 - jq = i := by omega
        rw [he, hQa]
        exact hwla
      · have hjq2 : i = jq :=
          posAfter_inj _ r i jq hM2 (by omega) hjqM (by rw [hQb, hjq])
        rw [← hjq2, hQa]
        exact hwla

/-- Witness for C3 at the concrete input `["Alice", "Bob", "Charlie"]`
(odd case). -/
theorem c3_bye_parity_witness :
    (∀ r < (generate_round_robin ["Alice", "Bob", "Charlie"]).2.length,
      (generate_round_robin ["Alice", "Bob", "Charlie"]).2.getD r "" ∈
        (["Alice", "Bob", "Charlie"] : List String) ∧
      (generate_round_robin ["Alice", "Bob", "Charlie"]).2.getD r "" ≠ "") ∧
    (∀ p ∈ (["Alice", "Bob", "Charlie"] : List String),
      ∃ r < (generate_round_robin ["Alice", "Bob", "Charlie"]).2.length,
        (generate_round_robin ["Alice", "Bob", "Charlie"]).2.getD r "" = p) :=
  (c3_bye_parity ["Alice", "Bob", "Charlie"] (by decide) (by decide)
    (by decide) (by decide)).2 (by decide)

/-- Claim C4: for every list of `N ≥ 2` unique participant strings, the
number of rounds returned by `generate_round_robin` is `N - 1` when `N` is
even and `N` when `N` is odd. -/
theorem c4_round_count :
    ∀ players : List String, players.Nodup → 2 ≤ players.length →
      (players.length % 2 = 0 →
        (generate_round_robin players).1.length = players.length - 1) ∧
      (players.length % 2 = 1 →
        (generate_round_robin players).1.length = players.length) := by
  intro players hnd h2
  constructor <;> intro hmod <;> rw [rounds_length players h2]
  · rw [workingList_length_even players hmod]
  · rw [workingList_length_odd players hmod]
    omega

/-- Witness for C4 at the concrete inputs `["Alice", "Bob"]` (even) and
`["Alice", "Bob", "Charlie"]` (odd). -/
theorem c4_round_count_witness :
    (generate_round_robin ["Alice", "Bob"]).1.length = 2 - 1 ∧
    (generate_round_robin ["Alice", "Bob", "Charlie"]).1.length = 3 :=
  ⟨(c4_round_count ["Alice", "Bob"] (by decide) (by decide)).1 (by decide),
   (c4_round_count ["Alice", "Bob", "Charlie"] (by decide) (by decide)).2
     (by decide)⟩

/-- Claim C5: `generate_round_robin` follows the circle method exactly as
the spec states it — `M - 1` iterations over the even working list, each
pairing position `i` with position `M - 1 - i` for `i` from `0` to
`M / 2 - 1` in index order, rotating with `[fixed] + old[2:] + [old[1]]`
between iterations; `circle_method_spec` is that description transcribed
from the spec. -/
theorem c5_circle_method :
    ∀ players : List String,
      generate_round_robin players = circle_method_spec players :=
  fun players => circle_spec_eq players

/-- Claim C6: `generate_round_robin` is total.  The checked embedding, in
which every Python list subscript is fallible, returns `some` of the plain
result on every input (no subscript is ever out of range), and inputs with
fewer than 2 entries yield the empty schedule rather than a failure. -/
theorem c6_total :
    ∀ players : List String,
      generate_round_robin_checked players =
        some (generate_round_robin players) ∧
      (players.length < 2 → generate_round_robin players = ([], [])) := by
  intro players
  exact ⟨generate_checked_eq players, fun h => generate_small players h⟩

/-- Witness for C6 at the concrete inputs `["Solo"]` and
`["Alice", "Bob"]`. -/
theorem c6_total_witness :
    (generate_round_robin_checked ["Solo"] =
      some (generate_round_robin ["Solo"]) ∧
     generate_round_robin ["Solo"] = ([], [])) ∧
    generate_round_robin_checked ["Alice", "Bob"] =
      some (generate_round_robin ["Alice", "Bob"]) :=
  ⟨⟨(c6_total ["Solo"]).1, (c6_total ["Solo"]).2 (by decide)⟩,
   (c6_total ["Alice", "Bob"]).1⟩

/-- Claim C7, as stated, fails on the code: for the input
`["Alice", "Bob", "Charlie", "David"]` the second round contains neither
the pairing Alice-Charlie nor the pairing David-Bob that the claim assigns
to it (the spec lists the contents of rounds 2 and 3 in the wrong
order). -/
theorem c7_counterexample :
    ((generate_round_robin ["Alice", "Bob", "Charlie", "David"]).1.getD 1
      []).countP (pairMatch "Alice" "Charlie") = 0 ∧
    ((generate_round_robin ["Alice", "Bob", "Charlie", "David"]).1.getD 1
      []).countP (pairMatch "David" "Bob") = 0 := by
  exact ⟨by decide, by decide⟩

/-- Claim C7 (amended: rounds 2 and 3 exchanged): on input
`["Alice", "Bob", "Charlie", "David"]` the code returns exactly 3 rounds
with no byes and 2 pairings per round, in order {Alice-David, Bob-Charlie},
{Alice-Bob, Charlie-David}, {Alice-Charlie, David-Bob}. -/
theorem c7_scenario :
    generate_round_robin ["Alice", "Bob", "Charlie", "David"] =
      ([[("Alice", "David"), ("Bob", "Charlie")],
        [("Alice", "Bob"), ("Charlie", "David")],
        [("Alice", "Charlie"), ("David", "Bob")]],
       ["", "", ""]) := by
  decide

/-- Claim C8: `generate_round_robin` is deterministic — two invocations on
the same list (same elements in the same order) return identical results. -/
theorem c8_deterministic :
    ∀ players1 players2 : List String, players1 = players2 →
      generate_round_robin players1 = generate_round_robin players2 := by
  intro players1 players2 h
  rw [h]

/-- Witness for C8 at the concrete input `["Alice", "Bob"]`. -/
theorem c8_deterministic_witness :
    generate_round_robin ["Alice", "Bob"] =
      generate_round_robin ["Alice", "Bob"] :=
  c8_deterministic ["Alice", "Bob"] ["Alice", "Bob"] rfl

/-- Claim C9, as stated, fails on the code: for the odd-length unique input
`["A", "B", "BYE"]` the working list holds two `"BYE"` entries, and in its
second round the two placeholders are paired with each other, so no
would-be opponent is recorded (the bye entry is empty); the same happens
for the even-length input `["A", "A", "BYE", "BYE"]` in which `"BYE"`
occurs twice. -/
theorem c9_counterexample :
    (List.Nodup ["A", "B", "BYE"] ∧
      1 < (generate_round_robin ["A", "B", "BYE"]).2.length ∧
      (generate_round_robin ["A", "B", "BYE"]).2.getD 1 "?" = "") ∧
    ((["A", "A", "BYE", "BYE"] : List String).length % 2 = 0 ∧
      1 < (generate_round_robin ["A", "A", "BYE", "BYE"]).2.length ∧
      (generate_round_robin ["A", "A", "BYE", "BYE"]).2.getD 1 "?" = "") := by
  exact ⟨⟨by decide, by decide, by decide⟩, by decide, by decide, by decide⟩

/-- Claim C9 (amended: the opponent-recording part requires the input to
have even length and to contain `"BYE"` exactly once): `"BYE"` appears in
no pairing of any round for any input, and for every input of at least 2
entries of even length containing `"BYE"` exactly once, every round
records `"BYE"`'s would-be opponent — a participant other than `"BYE"` —
in `byes_per_round`. -/
theorem c9_bye_placeholder :
    ∀ players : List String, 2 ≤ players.length →
      (∀ r : Nat, ∀ pr ∈ (generate_round_robin players).1.getD r [],
        pr.1 ≠ "BYE" ∧ pr.2 ≠ "BYE") ∧
      (players.length % 2 = 0 → players.count "BYE" = 1 →
        ∀ r < (generate_round_robin players).2.length,
          ∃ p ∈ players, p ≠ "BYE" ∧
            (generate_round_robin players).2.getD r "" = p) := by
  intro players h2
  constructor
  · intro r pr hpr
    exact emitted_pair_ne_bye players h2 r pr hpr
  · intro hmod hcount r hrlen
    have hmem : "BYE" ∈ players := List.count_pos_iff.mp (by omega)
    have hwl : workingList players = players := by
      unfold workingList
      rw [if_neg (by omega)]
    have hM2 : 2 ≤ (workingList players).length :=
      workingList_length_ge players h2
    have hblen := byes_length players h2
    have hr : r < (workingList players).length - 1 := by omega
    obtain ⟨j₀, hj₀N, hbyej⟩ := mem_getD players "BYE" hmem
    have hj₀M : j₀ < (workingList players).length := by rw [hwl]; omega
    have hbyew : (workingList players).getD j₀ "" = "BYE" := by
      rw [hwl]
      exact hbyej
    have huniq : ∀ c, c < (workingList players).length → c ≠ j₀ →
        (workingList players).getD c "" ≠ "BYE" := by
      intro c hc hcne hB
      rw [hwl] at hc hB
      have := two_getD_le_count players "BYE" c j₀ hc hj₀N hcne hB hbyej
      omega
    obtain ⟨jq, hjqM, hjq, hne2, hbv⟩ := round_bye_of_unique_bye players h2
      j₀ hj₀M hbyew huniq r hr
    set e := posAfter (workingList players).length r
      ((workingList players).length - 1 - jq) with he_def
    have heM : e < (workingList players).length :=
      posAfter_lt _ _ _ hM2 (by omega)
    have heN : e < players.length := by
      rw [hwl] at heM
      exact heM
    refine ⟨(workingList players).getD e "", ?_, huniq e heM hne2, hbv⟩
    rw [hwl]
    exact getD_mem players e heN

/-- Witness for C9 at the concrete inputs `["A", "BYE"]` (contains the
placeholder) and `["X", "Y", "Z"]` (odd length without it). -/
theorem c9_bye_placeholder_witness :
    (∀ r : Nat, ∀ pr ∈ (generate_round_robin ["A", "BYE"]).1.getD r [],
      pr.1 ≠ "BYE" ∧ pr.2 ≠ "BYE") ∧
    (∀ r : Nat, ∀ pr ∈ (generate_round_robin ["X", "Y", "Z"]).1.getD r [],
      pr.1 ≠ "BYE" ∧ pr.2 ≠ "BYE") ∧
    (∃ p ∈ (["A", "BYE"] : List String), p ≠ "BYE" ∧
      (generate_round_robin ["A", "BYE"]).2.getD 0 "" = p) :=
  ⟨(c9_bye_placeholder ["A", "BYE"] (by decide)).1,
   (c9_bye_placeholder ["X", "Y", "Z"] (by decide)).1,
   (c9_bye_placeholder ["A", "BYE"] (by decide)).2 (by decide)
     (by decide) 0 (by decide)⟩

/-- Claim C10: `generate_round_robin` does not modify its argument: in the
state-threaded embedding, in which the caller's list object is passed
through every step of the computation, the list comes back unchanged (the
function only reads it and builds fresh lists), and the computed schedule
agrees with the plain embedding. -/
theorem c10_argument_unchanged :
    ∀ players : List String,
      (generate_round_robin_st players).2 = players ∧
      (generate_round_robin_st players).1 = generate_round_robin players := by
  intro players
  rw [generate_st_eq players]
  exact ⟨rfl, rfl⟩

end RoundRobin
